import Mathlib

/-!
Verification development for the Peafowl IPv6 fragment reassembly engine
(src/src/ipv6_reassembly.cpp).

The engine state is embedded shallowly:

* The hash table of sources (`dpi_ipv6_fragmentation_state_t.table`, an array
  of doubly-linked bucket chains) is represented as a single flat list of
  `Source` records, each tagged with its bucket index `row`; bucket `i` is the
  sublist of records with `row = i`, in list order.  Prepending a source to a
  bucket is prepending to the flat list, and unlinking is removal of the first
  matching record, so per-bucket chain order is represented exactly.
* The doubly linked flow list of a source is `Source.flows` (head first; the C
  code prepends new flows at the head).
* The timer list (`timer_head`/`timer_tail`) is the list `State.timers` in
  head-to-tail order; `data` pointers are represented by the flow key
  (source address, destination address, identification).
* Machine integers (`u_int16_t`, `u_int32_t`) are modelled as `Nat`; the one
  place where C truncation is observable (the `htons` store of the payload
  length) takes an explicit `% 65536`.  Memory counters use `Nat` subtraction
  exactly where the C code subtracts.
* Heap allocation is assumed to succeed (the `malloc == NULL` branches of the
  C code are not taken), and pointer dereferences are represented by keyed
  lookups; lookup branches that cannot fail in the C code (a pointer is always
  valid) fall back to returning the state unchanged.
* The minimum-MTU screen of `dpi_reordering_manage_ipv6_fragment`
  (lines 569-574) is guarded by an `#ifndef DPI_DEBUG_FRAGMENTATION_v6` region,
  but that macro is unconditionally defined (to 0) at line 44 of the same
  file, so the screen is excluded from every build; the embedding therefore
  omits it, mirroring the preprocessed source.

The fragment-list primitive, the timer primitives and the address comparison
live in reassembly.c / utils.h, which are not part of the sources here; those
definitions are modelled from the spec and marked as such.
-/

namespace Ipv6Reassembly

/-- Byte strings (packet contents, IPv6 addresses) as lists of byte values. -/
abbrev Bytes := List Nat

/-- One received fragment interval, `dpi_reassembly_fragment_t`: half-open
interval with its owned copy of the data.  The field `stop` models the C
field `end` (a Lean keyword). -/
structure Frag where
  offset : Nat
  stop : Nat
  data : Bytes
deriving DecidableEq, Repr

/-- One reassembly timer, `dpi_reassembly_timer_t`.  The C `data` pointer to
the owning flow is represented by the flow key (source address, destination
address, identification). -/
structure Timer where
  expiration_time : Nat
  src : Bytes
  dst : Bytes
  fid : Nat
deriving DecidableEq, Repr

/-- Per-datagram reassembly context, `dpi_ipv6_fragmentation_flow_t`.  The C
pair (`unfragmentable`, `unfragmentable_length`) is an `Option Bytes`: the
length field is only ever read while the pointer is non-NULL, and it is set to
the buffer size at the same time as the pointer. -/
structure Flow where
  id : Nat
  dstaddr : Bytes
  unfragmentable : Option Bytes
  len : Nat
  fragments : List Frag
deriving DecidableEq, Repr

/-- Per-source context, `dpi_ipv6_fragmentation_source_t`. -/
structure Source where
  ipv6_srcaddr : Bytes
  row : Nat
  source_used_mem : Nat
  flows : List Flow
deriving DecidableEq, Repr

/-- The engine, `dpi_ipv6_fragmentation_state_t`.  See the module comment for
the flat representation of `table`. -/
structure State where
  table_size : Nat
  sources : List Source
  timers : List Timer
  total_used_mem : Nat
  per_source_memory_limit : Nat
  total_memory_limit : Nat
  timeout : Nat
deriving DecidableEq, Repr

/-- sizeof(dpi_ipv6_fragmentation_source_t); the exact platform value is
irrelevant to every result below, a representative value is fixed. -/
def sizeof_source : Nat := 64

/-- sizeof(dpi_ipv6_fragmentation_flow_t); representative platform value. -/
def sizeof_flow : Nat := 104

/-- DPI_IP_FRAGMENTATION_MAX_DATAGRAM_SIZE. -/
def DPI_IP_FRAGMENTATION_MAX_DATAGRAM_SIZE : Nat := 65535

/-- DPI_IPv6_FRAGMENTATION_MINIMUM_MTU (the screen using it is compiled out,
see the module comment; the constant is kept for stating claims about it). -/
def DPI_IPv6_FRAGMENTATION_MINIMUM_MTU : Nat := 1280

/-- sizeof(struct ip6_hdr): the 40-byte fixed IPv6 header. -/
def sizeof_ip6_hdr : Nat := 40

/-- Modelled from the spec: default per-source memory limit, a macro from the
collaborator header ipv6_reassembly.h which is not among the sources; the
exact value is irrelevant to every result below. -/
def DPI_IPv6_FRAGMENTATION_DEFAULT_PER_HOST_MEMORY_LIMIT : Nat := 1048576

/-- Modelled from the spec: default total memory limit, a macro from the
collaborator header ipv6_reassembly.h which is not among the sources. -/
def DPI_IPv6_FRAGMENTATION_DEFAULT_TOTAL_MEMORY_LIMIT : Nat := 10485760

/-- Modelled from the spec: default reassembly timeout in seconds, a macro
from the collaborator header ipv6_reassembly.h which is not among the
sources. -/
def DPI_IPv6_FRAGMENTATION_DEFAULT_REASSEMBLY_TIMEOUT : Nat := 30

/-- dpi_reordering_enable_ipv6_fragmentation: allocate the engine with the
given bucket count (allocation assumed to succeed; note the C code performs
no validation of table_size). -/
def dpi_reordering_enable_ipv6_fragmentation (table_size : Nat) : State :=
  { table_size := table_size
    sources := []
    timers := []
    total_used_mem := 0
    per_source_memory_limit := DPI_IPv6_FRAGMENTATION_DEFAULT_PER_HOST_MEMORY_LIMIT
    total_memory_limit := DPI_IPv6_FRAGMENTATION_DEFAULT_TOTAL_MEMORY_LIMIT
    timeout := DPI_IPv6_FRAGMENTATION_DEFAULT_REASSEMBLY_TIMEOUT }

/-- dpi_reordering_ipv6_fragmentation_set_per_host_memory_limit. -/
def dpi_reordering_ipv6_fragmentation_set_per_host_memory_limit
    (st : State) (v : Nat) : State :=
  { st with per_source_memory_limit := v }

/-- dpi_reordering_ipv6_fragmentation_set_total_memory_limit. -/
def dpi_reordering_ipv6_fragmentation_set_total_memory_limit
    (st : State) (v : Nat) : State :=
  { st with total_memory_limit := v }

/-- dpi_reordering_ipv6_fragmentation_set_reassembly_timeout. -/
def dpi_reordering_ipv6_fragmentation_set_reassembly_timeout
    (st : State) (v : Nat) : State :=
  { st with timeout := v }

/-- Modelled from the spec: dpi_v6_addresses_equal (utils.h, not among the
sources) compares two 16-byte IPv6 addresses for equality. -/
def dpi_v6_addresses_equal (a b : Bytes) : Bool :=
  a == b

/-- Read n bytes of a packet buffer starting at byte index start (out-of-range
reads, impossible for well-formed packets, yield 0). -/
def readBytes (l : Bytes) (start n : Nat) : Bytes :=
  (List.range n).map (fun i => l.getD (start + i) 0)

/-- One step of the shift-add-xor hash: `h ^= (h<<5)+(h>>2)+b` on a
`u_int16_t` accumulator (the right-hand side is computed in `int` and
truncated to 16 bits by the assignment). -/
def hashStep (h b : Nat) : Nat :=
  Nat.xor h (h * 32 + h / 4 + b) % 65536

/-- The 16-bit accumulator of dpi_ipv6_fragmentation_hash_function, before
reduction modulo the table size. -/
def hashRaw (addr : Bytes) : Nat :=
  addr.foldl hashStep 0

/-- dpi_ipv6_fragmentation_hash_function: shift-add-xor hash of the 16 address
bytes, reduced modulo the table size. -/
def dpi_ipv6_fragmentation_hash_function (st : State) (addr : Bytes) : Nat :=
  hashRaw addr % st.table_size

/-- Whether a source record is the one the bucket walk for addr stops at:
it lives in the bucket of addr and its address compares equal. -/
def sourceMatch (row : Nat) (addr : Bytes) (s : Source) : Bool :=
  s.row == row && dpi_v6_addresses_equal s.ipv6_srcaddr addr

/-- The bucket walk of find_or_create_source: first source in addr's bucket
whose address equals addr. -/
def findSource (st : State) (addr : Bytes) : Option Source :=
  st.sources.find? (sourceMatch (dpi_ipv6_fragmentation_hash_function st addr) addr)

/-- Whether a flow record matches the key (identification, destination). -/
def flowMatch (id : Nat) (dst : Bytes) (f : Flow) : Bool :=
  f.id == id && dpi_v6_addresses_equal dst f.dstaddr

/-- The flow-list walk of find_or_create_flow. -/
def findFlowIn (flows : List Flow) (id : Nat) (dst : Bytes) : Option Flow :=
  flows.find? (flowMatch id dst)

/-- Lookup of a flow through its source (a flow pointer in the C code). -/
def findFlow (st : State) (srcAddr : Bytes) (id : Nat) (dst : Bytes) : Option Flow :=
  match findSource st srcAddr with
  | none => none
  | some s => findFlowIn s.flows id dst

/-- Update the first element satisfying p (in-place mutation through a
pointer in the C code). -/
def updFirst (p : α → Bool) (g : α → α) : List α → List α
  | [] => []
  | a :: l => if p a then g a :: l else a :: updFirst p g l

/-- Update the source record addr points at. -/
def updateSource (st : State) (addr : Bytes) (g : Source → Source) : List Source :=
  updFirst (sourceMatch (dpi_ipv6_fragmentation_hash_function st addr) addr) g st.sources

/-- dpi_ipv6_fragmentation_find_or_create_source: walk the bucket; on a miss
allocate a fresh source, charge sizeof(source) and prepend it to the bucket.
Returns the found-or-created record together with the new state. -/
def dpi_ipv6_fragmentation_find_or_create_source (st : State) (addr : Bytes) :
    Source × State :=
  match findSource st addr with
  | some s => (s, st)
  | none =>
    let h := dpi_ipv6_fragmentation_hash_function st addr
    let s : Source := { ipv6_srcaddr := addr, row := h,
                        source_used_mem := sizeof_source, flows := [] }
    (s, { st with sources := s :: st.sources,
                  total_used_mem := st.total_used_mem + sizeof_source })

/-- Modelled from the spec: dpi_reassembly_delete_timer (reassembly.c, not
among the sources) unlinks the given timer node; the node is identified by
its flow key. -/
def dpi_reassembly_delete_timer (timers : List Timer) (src dst : Bytes) (fid : Nat) :
    List Timer :=
  timers.eraseP (fun t => t.src == src && t.dst == dst && t.fid == fid)

/-- Modelled from the spec: dpi_reassembly_add_timer (reassembly.c, not among
the sources) appends the timer at the tail of the list. -/
def dpi_reassembly_add_timer (timers : List Timer) (t : Timer) : List Timer :=
  timers ++ [t]

/-- Total payload bytes held by a fragment list (the quantity the memory
counters track for fragments). -/
def fragsBytes (l : List Frag) : Nat :=
  (l.map (fun f => f.stop - f.offset)).sum

/-- Bytes attributed to one flow: sizeof(flow), its fragment bytes, and its
stored unfragmentable copy. -/
def flowMem (f : Flow) : Nat :=
  sizeof_flow + fragsBytes f.fragments + (f.unfragmentable.getD []).length

/-- dpi_ipv6_fragmentation_delete_flow: debit sizeof(flow), remove the timer,
debit and free every fragment, debit and free the unfragmentable copy, unlink
the flow from its source.  The piecewise subtractions of the C code are
aggregated (on Nat, `a - x - y = a - (x + y)`). -/
def dpi_ipv6_fragmentation_delete_flow (st : State) (srcAddr : Bytes)
    (id : Nat) (dst : Bytes) : State :=
  match findSource st srcAddr with
  | none => st
  | some s =>
    match findFlowIn s.flows id dst with
    | none => st
    | some f =>
      let fp := flowMem f
      { st with
        sources := updateSource st srcAddr (fun s0 =>
          { s0 with source_used_mem := s0.source_used_mem - fp,
                    flows := s0.flows.eraseP (flowMatch id dst) }),
        timers := dpi_reassembly_delete_timer st.timers srcAddr dst id,
        total_used_mem := st.total_used_mem - fp }

/-- Bytes attributed to a flow list. -/
def flowsMem (l : List Flow) : Nat :=
  (l.map flowMem).sum

/-- dpi_ipv6_fragmentation_delete_source: delete every flow of the source
(each delete_flow debits the flow's bytes from the total and removes its
timer; its updates to the record being freed are unobservable and the
piecewise debits of the total are aggregated), unlink the source from its
bucket, debit sizeof(source). -/
def dpi_ipv6_fragmentation_delete_source (st : State) (addr : Bytes) : State :=
  match findSource st addr with
  | none => st
  | some s =>
    { st with
      sources := st.sources.eraseP
        (sourceMatch (dpi_ipv6_fragmentation_hash_function st addr) addr),
      timers := s.flows.foldl
        (fun ts f => dpi_reassembly_delete_timer ts addr f.dstaddr f.id) st.timers,
      total_used_mem := st.total_used_mem - (flowsMem s.flows + sizeof_source) }

/-- dpi_ipv6_fragmentation_find_or_create_flow: scan the source's flow list
for (id, dst); on a miss allocate a fresh flow, charge sizeof(flow), prepend
it to the source's flow list and enroll its timer at now + timeout.  Returns
none only when the source lookup fails (a NULL flow in the C code, where it
corresponds to allocation failure). -/
def dpi_ipv6_fragmentation_find_or_create_flow (st : State) (srcAddr : Bytes)
    (id : Nat) (dst : Bytes) (current_time : Nat) : Option Flow × State :=
  match findSource st srcAddr with
  | none => (none, st)
  | some s =>
    match findFlowIn s.flows id dst with
    | some f => (some f, st)
    | none =>
      let f : Flow := { id := id, dstaddr := dst, unfragmentable := none,
                        len := 0, fragments := [] }
      (some f,
       { st with
         sources := updateSource st srcAddr (fun s0 =>
           { s0 with source_used_mem := s0.source_used_mem + sizeof_flow,
                     flows := f :: s0.flows }),
         timers := dpi_reassembly_add_timer st.timers
           { expiration_time := current_time + st.timeout,
             src := srcAddr, dst := dst, fid := id },
         total_used_mem := st.total_used_mem + sizeof_flow })

/-- The parts of an existing interval that lie outside the newly inserted
interval [o, e) (the newcomer wins on every byte it covers; an existing
interval is shrunk, split or removed). -/
def clipOutside (o e : Nat) (f : Frag) : List Frag :=
  let leftStop := min f.stop o
  let rightStart := max f.offset e
  (if f.offset < leftStop then
    [{ offset := f.offset, stop := leftStop,
       data := f.data.take (leftStop - f.offset) }] else [])
  ++
  (if rightStart < f.stop then
    [{ offset := rightStart, stop := f.stop,
       data := f.data.drop (rightStart - f.offset) }] else [])

/-- Modelled from the spec: dpi_reassembly_insert_fragment (reassembly.c, not
among the sources).  Copies the provided bytes into an owned interval [o, e),
places it in the sorted list; overlapping ranges are resolved with the
newcomer winning, existing intervals being shrunk or removed when subsumed.
Reports (new list, bytes_removed from displaced intervals, bytes_inserted). -/
def dpi_reassembly_insert_fragment (frags : List Frag) (data : Bytes)
    (o e : Nat) : List Frag × Nat × Nat :=
  let kept := (frags.map (clipOutside o e)).flatten
  let newFrag : Frag := { offset := o, stop := e, data := data.take (e - o) }
  let before := kept.filter (fun f => f.stop ≤ o)
  let after := kept.filter (fun f => ¬ (f.stop ≤ o))
  (before ++ newFrag :: after, fragsBytes frags - fragsBytes kept, e - o)

/-- Chain check: every interval starts where the previous one stopped. -/
def trainFrom : Nat → List Frag → Bool
  | _, [] => true
  | p, f :: rest => p == f.offset && trainFrom f.stop rest

/-- Modelled from the spec: dpi_reassembly_ip_check_train_of_contiguous_fragments
(reassembly.c, not among the sources): true iff the list is non-empty, starts
at offset 0 and is gapless, i.e. its union covers [0, last stop)
contiguously. -/
def dpi_reassembly_ip_check_train_of_contiguous_fragments (l : List Frag) : Bool :=
  !l.isEmpty && trainFrom 0 l

/-- Modelled from the spec: dpi_reassembly_ip_compact_fragments (reassembly.c,
not among the sources): writes the intervals, in order, into the output
buffer and returns the byte count written, or -1 (here: none) when the
observed byte count disagrees with the declared length. -/
def dpi_reassembly_ip_compact_fragments (frags : List Frag) (declared_len : Nat) :
    Option (Nat × Bytes) :=
  if fragsBytes frags = declared_len then
    some (fragsBytes frags, (frags.map Frag.data).flatten)
  else
    none

/-- Store the unfragmentable copy on a flow: charge its length to the source
and the engine, record the buffer (whose next-header byte was rewritten by
the caller). -/
def storeUnfragmentable (st : State) (srcAddr : Bytes) (id : Nat) (dst : Bytes)
    (pfx : Bytes) : State :=
  match findFlow st srcAddr id dst with
  | none => st
  | some _ =>
    { st with
      sources := updateSource st srcAddr (fun s0 =>
        { s0 with source_used_mem := s0.source_used_mem + pfx.length,
                  flows := updFirst (flowMatch id dst)
                    (fun f => { f with unfragmentable := some pfx }) s0.flows }),
      total_used_mem := st.total_used_mem + pfx.length }

/-- Record the declared total length on a flow (`flow->len = end`). -/
def setFlowLen (st : State) (srcAddr : Bytes) (id : Nat) (dst : Bytes)
    (v : Nat) : State :=
  match findFlow st srcAddr id dst with
  | none => st
  | some _ =>
    { st with
      sources := updateSource st srcAddr (fun s0 =>
        { s0 with flows := (updFirst (flowMatch id dst)
            (fun f => { f with len := v }) s0.flows) }) }

/-- Insert the arriving fragment into a flow's list and update both memory
counters by the reported deltas (`+= bytes_inserted; -= bytes_removed`). -/
def insertFragmentIntoFlow (st : State) (srcAddr : Bytes) (id : Nat)
    (dst : Bytes) (data : Bytes) (o e : Nat) : State :=
  match findFlow st srcAddr id dst with
  | none => st
  | some f =>
    let r := dpi_reassembly_insert_fragment f.fragments data o e
    { st with
      sources := updateSource st srcAddr (fun s0 =>
        { s0 with
          source_used_mem := s0.source_used_mem + r.2.2 - r.2.1,
          flows := updFirst (flowMatch id dst)
            (fun f0 => { f0 with fragments := r.1 }) s0.flows }),
      total_used_mem := st.total_used_mem + r.2.2 - r.2.1 }

/-- Whether the source addr currently has an empty flow list
(`source->flows == NULL`). -/
def sourceFlowsEmpty (st : State) (addr : Bytes) : Bool :=
  match findSource st addr with
  | none => false
  | some s => s.flows.isEmpty

/-- dpi_ipv6_fragmentation_build_complete_datagram: allocate the output
buffer, copy the stored unfragmentable part, compact the fragments after it,
patch the payload-length field (bytes 4-5, network byte order) of the copied
IPv6 header, then delete the flow (and its source when emptied).  On an
oversized total the flow (and emptied source) is deleted and none returned;
on a compaction mismatch the buffer is released and none returned with the
flow kept. -/
def dpi_ipv6_fragmentation_build_complete_datagram (st : State)
    (srcAddr : Bytes) (id : Nat) (dst : Bytes) : Option Bytes × State :=
  match findFlow st srcAddr id dst with
  | none => (none, st)
  | some f =>
    let len := f.len
    let unfragLen := (f.unfragmentable.getD []).length
    if unfragLen + len > DPI_IP_FRAGMENTATION_MAX_DATAGRAM_SIZE then
      let st1 := dpi_ipv6_fragmentation_delete_flow st srcAddr id dst
      (none,
       if sourceFlowsEmpty st1 srcAddr then
         dpi_ipv6_fragmentation_delete_source st1 srcAddr
       else st1)
    else
      match dpi_reassembly_ip_compact_fragments f.fragments len with
      | none => (none, st)
      | some (count, payload) =>
        let raw := f.unfragmentable.getD [] ++ payload
        let plen := (count + unfragLen + 65536 - sizeof_ip6_hdr) % 65536
        let pkt := (raw.set 4 (plen / 256)).set 5 (plen % 256)
        let st1 := dpi_ipv6_fragmentation_delete_flow st srcAddr id dst
        (some pkt,
         if sourceFlowsEmpty st1 srcAddr then
           dpi_ipv6_fragmentation_delete_source st1 srcAddr
         else st1)

/-- The per-source eviction loop of dpi_reordering_manage_ipv6_fragment:
while the source's bytes exceed the per-source limit and it still has flows,
delete its head flow; if that empties the source, delete the source and abort
the call.  The first component reports abortion (return NULL).  Fuel bounds
the iteration count; manage supplies the flow-list length, which the loop
never exhausts. -/
def evictLoop (srcAddr : Bytes) : Nat → State → Bool × State
  | 0, st => (false, st)
  | fuel + 1, st =>
    match findSource st srcAddr with
    | none => (false, st)
    | some s =>
      match s.flows with
      | [] => (false, st)
      | f :: _ =>
        if s.source_used_mem > st.per_source_memory_limit then
          let st1 := dpi_ipv6_fragmentation_delete_flow st srcAddr f.id f.dstaddr
          if sourceFlowsEmpty st1 srcAddr then
            (true, dpi_ipv6_fragmentation_delete_source st1 srcAddr)
          else evictLoop srcAddr fuel st1
        else (false, st)

/-- The timer / global-memory sweep of dpi_reordering_manage_ipv6_fragment:
while the timer list is non-empty and (the head is expired or the global
memory limit is reached), delete the flow the head timer points at; then test
`source->flows == NULL` on the CURRENT call's source (note: not on the
deleted flow's source) and, when it holds, delete the deleted flow's source
(tmpsource) and abort the call. -/
def sweepLoop (srcAddr : Bytes) (current_time : Nat) : Nat → State → Bool × State
  | 0, st => (false, st)
  | fuel + 1, st =>
    match st.timers with
    | [] => (false, st)
    | t :: _ =>
      if t.expiration_time < current_time ∨
         st.total_used_mem ≥ st.total_memory_limit then
        let tmpAddr := t.src
        let st1 := dpi_ipv6_fragmentation_delete_flow st t.src t.fid t.dst
        if sourceFlowsEmpty st1 srcAddr then
          (true, dpi_ipv6_fragmentation_delete_source st1 tmpAddr)
        else sweepLoop srcAddr current_time fuel st1
      else (false, st)

/-- dpi_reordering_manage_ipv6_fragment: the public entry point.  The source
and destination addresses are read from the IPv6 fixed header at the start of
the unfragmentable part (bytes 8-23 and 24-39).  Returns the reassembled
datagram (when this fragment completes one) together with the new engine
state.  The minimum-MTU screen is compiled out (see the module comment). -/
def dpi_reordering_manage_ipv6_fragment (st : State)
    (unfragmentable : Bytes) (fragmentable : Bytes)
    (offset : Nat) (more_fragments : Nat) (identification : Nat)
    (next_header : Nat) (current_time : Nat) : Option Bytes × State :=
  let stop := offset + fragmentable.length
  if stop > DPI_IP_FRAGMENTATION_MAX_DATAGRAM_SIZE then (none, st)
  else
    let srcAddr := readBytes unfragmentable 8 16
    let dstAddr := readBytes unfragmentable 24 16
    let r0 := dpi_ipv6_fragmentation_find_or_create_source st srcAddr
    match evictLoop srcAddr r0.1.flows.length r0.2 with
    | (true, st2) => (none, st2)
    | (false, st2) =>
      match sweepLoop srcAddr current_time st2.timers.length st2 with
      | (true, st3) => (none, st3)
      | (false, st3) =>
        match dpi_ipv6_fragmentation_find_or_create_flow st3 srcAddr
            identification dstAddr current_time with
        | (none, st4) => (none, st4)
        | (some flow, st4) =>
          if flow.len ≠ 0 ∧ offset > flow.len then (none, st4)
          else
            let st5 :=
              if flow.unfragmentable.isNone then
                storeUnfragmentable st4 srcAddr identification dstAddr
                  (unfragmentable.set 6 next_header)
              else st4
            if more_fragments = 0 ∧ flow.len ≠ 0 then (none, st5)
            else
              let st6 :=
                if more_fragments = 0 then
                  setFlowLen st5 srcAddr identification dstAddr stop
                else st5
              let st7 := insertFragmentIntoFlow st6 srcAddr identification
                dstAddr fragmentable offset stop
              match findFlow st7 srcAddr identification dstAddr with
              | none => (none, st7)
              | some fl =>
                if fl.len ≠ 0 ∧
                   dpi_reassembly_ip_check_train_of_contiguous_fragments
                     fl.fragments then
                  dpi_ipv6_fragmentation_build_complete_datagram st7 srcAddr
                    identification dstAddr
                else (none, st7)

/-! Concrete scenarios used by the counterexamples and bug demonstrations
below.  `mkHdr a b` is a 40-byte IPv6 fixed header whose source address is
`a :: 0...0` (bytes 8-23) and whose destination address is `b :: 0...0`
(bytes 24-39). -/

/-- A 40-byte IPv6 fixed header with tagged source and destination. -/
def mkHdr (srcTag dstTag : Nat) : Bytes :=
  ((List.replicate 40 0).set 8 srcTag).set 24 dstTag

/-- The source address carried by `mkHdr a b`. -/
def srcOf (srcTag dstTag : Nat) : Bytes := readBytes (mkHdr srcTag dstTag) 8 16

/-- The destination address carried by `mkHdr a b`. -/
def dstOf (srcTag dstTag : Nat) : Bytes := readBytes (mkHdr srcTag dstTag) 24 16

/-- Scenario for C1: an engine whose per-source limit is 10 bytes, holding one
flow (id 1) from source 1, established by one MF=1 fragment at time 0. -/
def c1_st1 : State :=
  (dpi_reordering_manage_ipv6_fragment
    (dpi_reordering_ipv6_fragmentation_set_per_host_memory_limit
      (dpi_reordering_enable_ipv6_fragmentation 1) 10)
    (mkHdr 1 2) (List.replicate 100 7) 0 1 1 59 0).2

/-- Scenario for C2: engine with one MF=1 flow from source 1 (id 1, time 0)
and one MF=1 flow from source 2 (id 2, time 0), default limits,
timeout 30. -/
def c2_st2 : State :=
  (dpi_reordering_manage_ipv6_fragment
    (dpi_reordering_manage_ipv6_fragment
      (dpi_reordering_enable_ipv6_fragmentation 1)
      (mkHdr 1 2) (List.replicate 50 7) 0 1 1 59 0).2
    (mkHdr 2 2) (List.replicate 50 7) 0 1 2 59 0).2

/-- Scenario for C2, continued: at time 100 (both timers expired) source 2
sends a fresh fragment (id 3). -/
def c2_run : Option Bytes × State :=
  dpi_reordering_manage_ipv6_fragment c2_st2
    (mkHdr 2 2) (List.replicate 50 7) 0 1 3 59 100

/-- Scenario for C4 and C7: flow (source 1, dst 2, id 7) receives an MF=1
fragment [0, 100) at time 0, then an MF=0 fragment [0, 60) at time 1 (so the
declared length becomes 60 while 100 bytes are stored: the completeness check
passes and compaction reports a mismatch). -/
def c47_run : Option Bytes × State :=
  dpi_reordering_manage_ipv6_fragment
    (dpi_reordering_manage_ipv6_fragment
      (dpi_reordering_enable_ipv6_fragmentation 1)
      (mkHdr 1 2) (List.replicate 100 7) 0 1 7 59 0).2
    (mkHdr 1 2) (List.replicate 60 3) 0 0 7 59 1

/-- Scenario for C5: per-source limit 400 bytes; source 1 creates flow id 1 at
time 1 and flow id 2 at time 2 (each one MF=1 fragment of 100 bytes, source
bytes now 552 > 400), then sends a fragment for a new flow id 3 at time 3,
which triggers the per-source eviction loop. -/
def c5_st2 : State :=
  (dpi_reordering_manage_ipv6_fragment
    (dpi_reordering_manage_ipv6_fragment
      (dpi_reordering_ipv6_fragmentation_set_per_host_memory_limit
        (dpi_reordering_enable_ipv6_fragmentation 1) 400)
      (mkHdr 1 2) (List.replicate 100 7) 0 1 1 59 1).2
    (mkHdr 1 2) (List.replicate 100 7) 0 1 2 59 2).2

/-- Scenario for C5, continued: the call at time 3 that evicts. -/
def c5_run : Option Bytes × State :=
  dpi_reordering_manage_ipv6_fragment c5_st2
    (mkHdr 1 2) (List.replicate 10 7) 0 1 3 59 3

/-- Scenario for C6: a single-fragment datagram of 44 on-wire bytes (40-byte
header, 4 payload bytes), far below the 1280-byte minimum MTU, fed to a fresh
engine. -/
def c6_run : Option Bytes × State :=
  dpi_reordering_manage_ipv6_fragment (dpi_reordering_enable_ipv6_fragmentation 1)
    (mkHdr 1 2) (List.replicate 4 9) 0 0 1 59 0

/-- C1, counterexample.  The claim quantifies over every engine "holding no
prior state for (src, dst, id)" but allows other state.  Here the engine
c1_st1 holds no state for (source 1, dst 2, id 2) — the lookup is `none` —
yet the offset=0, MF=0 call for that key returns nothing instead of the
reassembled buffer: the per-source eviction loop (the source's 308 bytes
exceed the 10-byte limit) drains the source and aborts the call. -/
theorem c1_counterexample :
    findFlow c1_st1 (srcOf 1 2) 2 (dstOf 1 2) = none ∧
    (dpi_reordering_manage_ipv6_fragment c1_st1
      (mkHdr 1 2) (List.replicate 50 3) 0 0 2 59 1).1 = none := by
  exact ⟨rfl, rfl⟩

/-- C2, demonstration of the code bug at the failing input.  After the
three-call scenario (two expired flows from sources 1 and 2, then a fresh
fragment from source 2 at time 100), the sweep deletes source 1's flow, which
leaves source 1 with zero flows; but the code tests `source->flows` of the
CURRENT call's source instead of the deleted flow's source (`tmpsource`), so
source 1 is never deleted: the final table holds exactly one source — source
1 — with an empty flow list, violating the invariant that no zero-flow source
exists. -/
theorem c2_failing_run :
    c2_run.1 = none ∧
    c2_run.2.sources.map (fun s => (s.ipv6_srcaddr, s.flows)) =
      [(srcOf 1 2, [])] := by
  exact ⟨rfl, rfl⟩

/-- C4, counterexample.  In the engine left by c47_run, the flow
(source 1, dst 2, id 7) has declared length 60 (non-zero) while its fragment
list still stores the interval [60, 100), whose end 100 exceeds the declared
length — the claimed invariant `end ≤ declared_len` does not hold. -/
theorem c4_counterexample :
    (findFlow c47_run.2 (srcOf 1 2) 7 (dstOf 1 2)).map
      (fun f => decide (f.len ≠ 0) &&
        f.fragments.any (fun fr => decide (fr.stop > f.len))) = some true := by
  exact rfl

/-- C5, counterexample.  Before the third call, source 1's flow list is
[id 2, id 1] (new flows are prepended; id 1 was created at time 1, id 2 at
time 2, as the timer enrollments show) and its 552 bytes exceed the 400-byte
limit.  The eviction triggered by the third call removes flow id 2 — the most
recently created one — while the oldest flow id 1 survives, contradicting the
claim that the oldest remaining flow is evicted. -/
theorem c5_counterexample :
    c5_st2.per_source_memory_limit = 400 ∧
    c5_st2.sources.map (fun s => (s.source_used_mem, s.flows.map Flow.id)) =
      [(552, [2, 1])] ∧
    c5_st2.timers.map (fun t => (t.fid, t.expiration_time)) = [(1, 31), (2, 32)] ∧
    c5_run.2.sources.map (fun s => s.flows.map Flow.id) = [[3, 1]] := by
  exact ⟨rfl, rfl, rfl, rfl⟩

/-- C6, demonstration of the code bug at the failing input.  The full on-wire
size of the packet (40 + 4 = 44 bytes) is far below the 1280-byte minimum
MTU, and the build is the production build, yet the call does not reject the
packet: it processes it and returns a reassembled buffer.  The undersized-
packet screen (lines 569-574) sits inside `#ifndef DPI_DEBUG_FRAGMENTATION_v6`
while that macro is defined (to 0) at line 44 of the same file, so the screen
its own comment announces for non-debug builds is compiled out of every
build. -/
theorem c6_failing_run :
    (mkHdr 1 2).length + (List.replicate 4 9).length <
      DPI_IPv6_FRAGMENTATION_MINIMUM_MTU ∧
    c6_run.1.isSome = true := by
  exact ⟨by decide, rfl⟩

/-- C7, counterexample.  In c47_run the completeness check passes (declared
length 60 non-zero, fragments [0,60), [60,100) form a contiguous train) and
compaction reports a mismatch (100 bytes stored against 60 declared, the C
routine returns -1); the claim says the engine then deletes the flow, but the
call returns nothing with the flow still present — only the output buffer is
released (`free(pkt_beginning); return NULL;` at lines 464-467, with no
delete_flow call). -/
theorem c7_counterexample :
    (findFlow c47_run.2 (srcOf 1 2) 7 (dstOf 1 2)).map
      (fun f => decide (f.len ≠ 0) &&
        dpi_reassembly_ip_check_train_of_contiguous_fragments f.fragments &&
        (dpi_reassembly_ip_compact_fragments f.fragments f.len).isNone)
      = some true ∧
    c47_run.1 = none := by
  exact ⟨rfl, rfl⟩

/-- C9, counterexample.  `dpi_reordering_enable_ipv6_fragmentation` performs
no validation of the bucket count: called with 0 it builds an engine with
`table_size = 0` instead of rejecting, and on that engine the hash reduction
is not below the bucket count (in the C code `h % 0` is not even defined). -/
theorem c9_counterexample :
    (dpi_reordering_enable_ipv6_fragmentation 0).table_size = 0 ∧
    ¬ (dpi_ipv6_fragmentation_hash_function
        (dpi_reordering_enable_ipv6_fragmentation 0) (List.replicate 16 0) <
       (dpi_reordering_enable_ipv6_fragmentation 0).table_size) := by
  exact ⟨rfl, by decide⟩

/-- C8.  A call whose fragment would end past byte 65535
(offset + fragmentable_size > DPI_IP_FRAGMENTATION_MAX_DATAGRAM_SIZE) is
rejected up front: the call returns nothing and the engine state — table,
sources, flows, timers, memory counters — is returned exactly as it was. -/
theorem c8_oversize_reject (st : State) (unfrag frag : Bytes)
    (offset mf id nh now : Nat)
    (h : offset + frag.length > DPI_IP_FRAGMENTATION_MAX_DATAGRAM_SIZE) :
    dpi_reordering_manage_ipv6_fragment st unfrag frag offset mf id nh now =
      (none, st) := by
  unfold dpi_reordering_manage_ipv6_fragment
  simp [h]

/-- Witness for c8_oversize_reject at a concrete input. -/
theorem c8_oversize_reject_witness :
    65535 + ([3] : Bytes).length > DPI_IP_FRAGMENTATION_MAX_DATAGRAM_SIZE ∧
    dpi_reordering_manage_ipv6_fragment
      (dpi_reordering_enable_ipv6_fragmentation 4)
      (mkHdr 1 2) [3] 65535 1 9 59 5 =
      (none, dpi_reordering_enable_ipv6_fragmentation 4) :=
  ⟨by decide,
   c8_oversize_reject (dpi_reordering_enable_ipv6_fragmentation 4)
     (mkHdr 1 2) [3] 65535 1 9 59 5 (by decide)⟩

/-- C9, amended.  Create performs no validation of the bucket count (see the
counterexample); what does hold is that for every engine whose bucket count
is at least 1 — as every engine in use has — the hash function's reduction
modulo the bucket count is well-defined and returns a bucket index strictly
smaller than the bucket count. -/
theorem c9_amended (n : Nat) (h : 1 ≤ n) (addr : Bytes) :
    dpi_ipv6_fragmentation_hash_function
        (dpi_reordering_enable_ipv6_fragmentation n) addr <
      (dpi_reordering_enable_ipv6_fragmentation n).table_size := by
  exact Nat.mod_lt _ h

/-- Witness for c9_amended at a concrete input. -/
theorem c9_amended_witness :
    1 ≤ 4 ∧
    dpi_ipv6_fragmentation_hash_function
        (dpi_reordering_enable_ipv6_fragmentation 4) (List.replicate 16 1) <
      (dpi_reordering_enable_ipv6_fragmentation 4).table_size :=
  ⟨by decide, c9_amended 4 (by decide) (List.replicate 16 1)⟩

/-! Generic lemmas about the first-match list operations used to represent
pointer-based list surgery. -/

theorem find?_decomp {p : α → Bool} {l : List α} {a : α}
    (h : l.find? p = some a) :
    ∃ l₁ l₂, l = l₁ ++ a :: l₂ ∧ (∀ x ∈ l₁, p x = false) ∧ p a = true := by
  induction l with
  | nil => cases h
  | cons b l ih =>
    cases hp : p b with
    | true =>
      rw [List.find?_cons_of_pos _ hp] at h
      cases h
      exact ⟨[], l, rfl, by simp, hp⟩
    | false =>
      rw [List.find?_cons_of_neg _ (by simp [hp])] at h
      obtain ⟨l₁, l₂, rfl, h1, h2⟩ := ih h
      refine ⟨b :: l₁, l₂, rfl, ?_, h2⟩
      intro x hx
      rcases List.mem_cons.1 hx with rfl | hx
      · exact hp
      · exact h1 x hx

theorem find?_scan {p : α → Bool} {l₁ l₂ : List α} {a : α}
    (h₁ : ∀ x ∈ l₁, p x = false) (h₂ : p a = true) :
    (l₁ ++ a :: l₂).find? p = some a := by
  induction l₁ with
  | nil => rw [List.nil_append]; exact List.find?_cons_of_pos _ h₂
  | cons b l₁ ih =>
    have hb : p b = false := h₁ b (by simp)
    rw [List.cons_append, List.find?_cons_of_neg _ (by simp [hb])]
    exact ih (fun x hx => h₁ x (by simp [hx]))

theorem updFirst_scan {p : α → Bool} (g : α → α) {l₁ l₂ : List α} {a : α}
    (h₁ : ∀ x ∈ l₁, p x = false) (h₂ : p a = true) :
    updFirst p g (l₁ ++ a :: l₂) = l₁ ++ g a :: l₂ := by
  induction l₁ with
  | nil => simp [updFirst, h₂]
  | cons b l₁ ih =>
    have hb : p b = false := h₁ b (by simp)
    simp [updFirst, hb, ih (fun x hx => h₁ x (by simp [hx]))]

theorem eraseP_scan {p : α → Bool} {l₁ l₂ : List α} {a : α}
    (h₁ : ∀ x ∈ l₁, p x = false) (h₂ : p a = true) :
    (l₁ ++ a :: l₂).eraseP p = l₁ ++ l₂ := by
  induction l₁ with
  | nil => simp [List.eraseP_cons, h₂]
  | cons b l₁ ih =>
    have hb : p b = false := h₁ b (by simp)
    simp [List.eraseP_cons, hb, ih (fun x hx => h₁ x (by simp [hx]))]

/-! Evaluation lemmas for the engine operations at resolved lookups. -/

/-- The bucket-walk predicate accepts the record it found. -/
theorem sourceMatch_self (row : Nat) (addr : Bytes) (s : Source)
    (h : sourceMatch row addr s = true) :
    s.row = row ∧ s.ipv6_srcaddr = addr := by
  simp [sourceMatch, dpi_v6_addresses_equal] at h
  exact h

theorem flowMatch_self_of_eq (f : Flow) : flowMatch f.id f.dstaddr f = true := by
  simp [flowMatch, dpi_v6_addresses_equal]

theorem find_or_create_source_found {st : State} {a : Bytes} {s : Source}
    (h : findSource st a = some s) :
    dpi_ipv6_fragmentation_find_or_create_source st a = (s, st) := by
  unfold dpi_ipv6_fragmentation_find_or_create_source
  rw [h]

theorem find_or_create_flow_found {st : State} {a : Bytes} {s : Source}
    {id : Nat} {d : Bytes} {f : Flow} (t : Nat)
    (hs : findSource st a = some s) (hf : findFlowIn s.flows id d = some f) :
    dpi_ipv6_fragmentation_find_or_create_flow st a id d t = (some f, st) := by
  unfold dpi_ipv6_fragmentation_find_or_create_flow
  simp [hs, hf]

theorem evictLoop_no_evict {st : State} {a : Bytes} {s : Source}
    (hs : findSource st a = some s)
    (hle : s.source_used_mem ≤ st.per_source_memory_limit) (fuel : Nat) :
    evictLoop a fuel st = (false, st) := by
  cases fuel with
  | zero => rfl
  | succ n =>
    unfold evictLoop
    cases hfl : s.flows with
    | nil => simp [hs, hfl]
    | cons f rest => simp [hs, hfl, Nat.not_lt.2 hle]

theorem sweepLoop_no_sweep {st : State} {a : Bytes} {now : Nat}
    (hexp : ∀ t ∈ st.timers, ¬ t.expiration_time < now)
    (hmem : st.total_used_mem < st.total_memory_limit) (fuel : Nat) :
    sweepLoop a now fuel st = (false, st) := by
  cases fuel with
  | zero => rfl
  | succ n =>
    unfold sweepLoop
    cases ht : st.timers with
    | nil => rfl
    | cons t rest =>
      have h1 : ¬ t.expiration_time < now := hexp t (by rw [ht]; simp)
      have h2 : ¬ st.total_used_mem ≥ st.total_memory_limit := Nat.not_le.2 hmem
      simp [h1, h2]

/-- C4, amended.  The second half of the claim holds (under the side
conditions that keep the in-call sweeps from touching the flow): when the
engine already holds the flow for this fragment's key, its declared length is
non-zero, the arriving fragment's offset exceeds it, no enrolled timer has
expired at `now`, the engine is below its global memory limit and the flow's
source is within the per-source limit, the call returns nothing and leaves
the engine state completely unchanged — in particular the fragment is not
inserted.  (The first half of the claim — every stored fragment of such a
flow has end ≤ declared_len — is refuted by the counterexample.) -/
theorem c4_amended (st : State) (unfrag frag : Bytes)
    (offset mf id nh now : Nat) (s : Source) (f : Flow)
    (hs : findSource st (readBytes unfrag 8 16) = some s)
    (hf : findFlowIn s.flows id (readBytes unfrag 24 16) = some f)
    (hsrc : s.source_used_mem ≤ st.per_source_memory_limit)
    (hexp : ∀ t ∈ st.timers, ¬ t.expiration_time < now)
    (hmem : st.total_used_mem < st.total_memory_limit)
    (hlen : f.len ≠ 0) (hoff : offset > f.len) :
    dpi_reordering_manage_ipv6_fragment st unfrag frag offset mf id nh now =
      (none, st) := by
  unfold dpi_reordering_manage_ipv6_fragment
  by_cases hstop : offset + frag.length > DPI_IP_FRAGMENTATION_MAX_DATAGRAM_SIZE
  · simp [hstop]
  · rw [if_neg hstop]
    simp only [find_or_create_source_found hs,
      evictLoop_no_evict hs hsrc,
      sweepLoop_no_sweep hexp hmem,
      find_or_create_flow_found now hs hf]
    simp [hlen, hoff]

/-- The flow record held by the engine after the C4/C7 scenario. -/
def c47_flow : Flow :=
  { id := 7, dstaddr := dstOf 1 2,
    unfragmentable := some ((mkHdr 1 2).set 6 59),
    len := 60,
    fragments := [⟨0, 60, List.replicate 60 3⟩, ⟨60, 100, List.replicate 40 7⟩] }

/-- The source record held by the engine after the C4/C7 scenario. -/
def c47_source : Source :=
  { ipv6_srcaddr := srcOf 1 2, row := 0, source_used_mem := 308,
    flows := [c47_flow] }

/-- Witness for c4_amended at a concrete input: the engine left by the C4/C7
scenario holds the flow (source 1, dst 2, id 7) with declared length 60; a
fragment for that flow at offset 200 is dropped with the state unchanged. -/
theorem c4_amended_witness :
    dpi_reordering_manage_ipv6_fragment c47_run.2
      (mkHdr 1 2) (List.replicate 8 1) 200 1 7 59 2 = (none, c47_run.2) :=
  c4_amended c47_run.2 (mkHdr 1 2) (List.replicate 8 1) 200 1 7 59 2
    c47_source c47_flow rfl rfl (by decide) (by decide) (by decide)
    (by decide) (by decide)

/-- C7, amended.  When the completeness check has passed but compaction
reports a byte count disagreeing with the declared length (the C routine
returns -1), the engine releases the partially built output buffer, KEEPS the
flow, and the call returns nothing: build_complete_datagram returns with the
state unchanged (the claim's assertion that the flow is deleted is refuted by
the counterexample; only the overflow violation deletes the flow). -/
theorem c7_amended (st : State) (a : Bytes) (id : Nat) (d : Bytes) (f : Flow)
    (hf : findFlow st a id d = some f)
    (hsize : (f.unfragmentable.getD []).length + f.len ≤
      DPI_IP_FRAGMENTATION_MAX_DATAGRAM_SIZE)
    (hmismatch : dpi_reassembly_ip_compact_fragments f.fragments f.len = none) :
    dpi_ipv6_fragmentation_build_complete_datagram st a id d = (none, st) := by
  unfold dpi_ipv6_fragmentation_build_complete_datagram
  simp [hf, hmismatch, Nat.not_lt.2 hsize]

/-- Witness for c7_amended at a concrete input: the engine left by the C4/C7
scenario (whose flow has declared length 60 but 100 stored bytes, so
compaction mismatches while the train check passes). -/
theorem c7_amended_witness :
    dpi_ipv6_fragmentation_build_complete_datagram c47_run.2
      (srcOf 1 2) 7 (dstOf 1 2) = (none, c47_run.2) :=
  c7_amended c47_run.2 (srcOf 1 2) 7 (dstOf 1 2) c47_flow rfl (by decide) rfl

theorem find?_updFirst_self {p : α → Bool} {l : List α} {a : α} (g : α → α)
    (h : l.find? p = some a) (hg : p (g a) = true) :
    (updFirst p g l).find? p = some (g a) := by
  obtain ⟨l₁, l₂, rfl, h1, h2⟩ := find?_decomp h
  rw [updFirst_scan g h1 h2]
  exact find?_scan h1 hg

/-- After mutating the record a source pointer designates (any mutation that
preserves the address and the cached row; the timer list and the total memory
counter may change independently), the bucket walk finds the mutated
record. -/
theorem findSource_after_update {st : State} {a : Bytes} {s : Source}
    (hs : findSource st a = some s) (g : Source → Source)
    (hrow : (g s).row = s.row) (haddr : (g s).ipv6_srcaddr = s.ipv6_srcaddr)
    (ts : List Timer) (tu : Nat) :
    findSource { st with sources := updateSource st a g,
                         timers := ts, total_used_mem := tu } a = some (g s) := by
  unfold findSource dpi_ipv6_fragmentation_hash_function at hs ⊢
  unfold updateSource dpi_ipv6_fragmentation_hash_function
  have hps : sourceMatch (hashRaw a % st.table_size) a s = true :=
    List.find?_some hs
  have hpg : sourceMatch (hashRaw a % st.table_size) a (g s) = true := by
    simp only [sourceMatch, dpi_v6_addresses_equal, hrow, haddr] at hps ⊢
    exact hps
  exact find?_updFirst_self g hs hpg

/-- C5, amended.  Whenever the per-source eviction loop removes a flow, the
flow removed is the HEAD of the source's flow list, not its oldest flow: the
loop's step deletes the head flow `f` (first conjunct), deleting it removes
exactly the head while the remaining flows survive unchanged (second
conjunct), and find_or_create_flow PREPENDS each newly created flow at the
head (third conjunct), so the head — hence the evicted flow — is the most
recently created remaining flow of that source. -/
theorem c5_amended (st : State) (a : Bytes) (s : Source) (f : Flow)
    (rest : List Flow) (fuel : Nat)
    (hs : findSource st a = some s) (hflows : s.flows = f :: rest)
    (hover : s.source_used_mem > st.per_source_memory_limit) :
    (evictLoop a (fuel + 1) st =
      (if sourceFlowsEmpty
            (dpi_ipv6_fragmentation_delete_flow st a f.id f.dstaddr) a = true
       then (true, dpi_ipv6_fragmentation_delete_source
              (dpi_ipv6_fragmentation_delete_flow st a f.id f.dstaddr) a)
       else evictLoop a fuel
              (dpi_ipv6_fragmentation_delete_flow st a f.id f.dstaddr))) ∧
    findSource (dpi_ipv6_fragmentation_delete_flow st a f.id f.dstaddr) a =
      some { s with source_used_mem := s.source_used_mem - flowMem f,
                    flows := rest } ∧
    (∀ st0 a0 s0 id0 d0 t0, findSource st0 a0 = some s0 →
      findFlowIn s0.flows id0 d0 = none →
      findSource
          (dpi_ipv6_fragmentation_find_or_create_flow st0 a0 id0 d0 t0).2 a0 =
        some { s0 with
          source_used_mem := s0.source_used_mem + sizeof_flow,
          flows := { id := id0, dstaddr := d0, unfragmentable := none,
                     len := 0, fragments := [] } :: s0.flows }) := by
  have hfind : findFlowIn s.flows f.id f.dstaddr = some f := by
    rw [hflows]
    exact List.find?_cons_of_pos _ (flowMatch_self_of_eq f)
  refine ⟨?_, ?_, ?_⟩
  · conv_lhs => rw [evictLoop]
    simp [hs, hflows, hover]
  · unfold dpi_ipv6_fragmentation_delete_flow
    simp only [hs, hfind]
    have herase : s.flows.eraseP (flowMatch f.id f.dstaddr) = rest := by
      rw [hflows]
      exact List.eraseP_cons_of_pos (flowMatch_self_of_eq f)
    have h2 := findSource_after_update hs
      (fun s0 => { s0 with
        source_used_mem := s0.source_used_mem - flowMem f,
        flows := s0.flows.eraseP (flowMatch f.id f.dstaddr) }) rfl rfl
      (dpi_reassembly_delete_timer st.timers a f.dstaddr f.id)
      (st.total_used_mem - flowMem f)
    exact h2.trans (by simp [herase])
  · intro st0 a0 s0 id0 d0 t0 hs0 hmiss
    unfold dpi_ipv6_fragmentation_find_or_create_flow
    simp only [hs0, hmiss]
    exact findSource_after_update hs0
      (fun s1 => { s1 with
        source_used_mem := s1.source_used_mem + sizeof_flow,
        flows := { id := id0, dstaddr := d0, unfragmentable := none,
                   len := 0, fragments := [] } :: s1.flows }) rfl rfl
      (dpi_reassembly_add_timer st0.timers
        { expiration_time := t0 + st0.timeout, src := a0, dst := d0, fid := id0 })
      (st0.total_used_mem + sizeof_flow)

/-- The younger flow (id 2, created at time 2) of the C5 scenario. -/
def c5_flow2 : Flow :=
  { id := 2, dstaddr := dstOf 1 2,
    unfragmentable := some ((mkHdr 1 2).set 6 59),
    len := 0, fragments := [⟨0, 100, List.replicate 100 7⟩] }

/-- The older flow (id 1, created at time 1) of the C5 scenario. -/
def c5_flow1 : Flow :=
  { id := 1, dstaddr := dstOf 1 2,
    unfragmentable := some ((mkHdr 1 2).set 6 59),
    len := 0, fragments := [⟨0, 100, List.replicate 100 7⟩] }

/-- The source record of the C5 scenario before the evicting call. -/
def c5_source : Source :=
  { ipv6_srcaddr := srcOf 1 2, row := 0, source_used_mem := 552,
    flows := [c5_flow2, c5_flow1] }

/-- Witness for c5_amended at a concrete input: in the C5 scenario the
eviction step removes exactly the head flow (id 2, the most recently created
one), leaving [id 1]. -/
theorem c5_amended_witness :
    findSource c5_st2 (srcOf 1 2) = some c5_source ∧
    c5_source.flows = c5_flow2 :: [c5_flow1] ∧
    c5_source.source_used_mem > c5_st2.per_source_memory_limit ∧
    findSource (dpi_ipv6_fragmentation_delete_flow c5_st2 (srcOf 1 2)
        c5_flow2.id c5_flow2.dstaddr) (srcOf 1 2) =
      some { c5_source with
        source_used_mem := c5_source.source_used_mem - flowMem c5_flow2,
        flows := [c5_flow1] } :=
  ⟨rfl, rfl, by decide,
   (c5_amended c5_st2 (srcOf 1 2) c5_source c5_flow2 [c5_flow1] 0
     rfl rfl (by decide)).2.1⟩

/-! Development for C10: after every call, every flow still present has its
unfragmentable copy stored. -/

/-- Every flow currently held by the engine has a stored unfragmentable
copy. -/
def unfragPresent (st : State) : Prop :=
  ∀ s ∈ st.sources, ∀ f ∈ s.flows, f.unfragmentable.isSome = true

instance (st : State) : Decidable (unfragPresent st) := by
  unfold unfragPresent
  infer_instance

theorem mem_updFirst {p : α → Bool} {g : α → α} {l : List α} {x : α}
    (hx : x ∈ updFirst p g l) : x ∈ l ∨ ∃ a, a ∈ l ∧ x = g a := by
  induction l with
  | nil => cases hx
  | cons b l ih =>
    cases hp : p b with
    | true =>
      rw [updFirst, if_pos hp] at hx
      rcases List.mem_cons.1 hx with rfl | hx
      · exact Or.inr ⟨b, by simp, rfl⟩
      · exact Or.inl (by simp [hx])
    | false =>
      rw [updFirst, if_neg (by simp [hp])] at hx
      rcases List.mem_cons.1 hx with rfl | hx
      · exact Or.inl (by simp)
      · rcases ih hx with h | ⟨a, ha, rfl⟩
        · exact Or.inl (by simp [h])
        · exact Or.inr ⟨a, by simp [ha], rfl⟩

theorem up_updateSource {st : State} {a : Bytes} {g : Source → Source}
    (h : unfragPresent st)
    (hg : ∀ s0, s0 ∈ st.sources →
      (∀ f ∈ s0.flows, f.unfragmentable.isSome = true) →
      ∀ f ∈ (g s0).flows, f.unfragmentable.isSome = true)
    {st' : State} (hs : st'.sources = updateSource st a g) :
    unfragPresent st' := by
  intro s hs' f hf
  rw [hs] at hs'
  unfold updateSource at hs'
  rcases mem_updFirst hs' with hmem | ⟨y, hy, rfl⟩
  · exact h s hmem f hf
  · exact hg y hy (h y hy) f hf

theorem flows_updFirst_ok {q : Flow → Bool} {g' : Flow → Flow}
    {fl : List Flow}
    (hok : ∀ f ∈ fl, f.unfragmentable.isSome = true)
    (hg : ∀ f, f.unfragmentable.isSome = true →
      (g' f).unfragmentable.isSome = true) :
    ∀ f ∈ updFirst q g' fl, f.unfragmentable.isSome = true := by
  intro f hf
  rcases mem_updFirst hf with h | ⟨y, hy, rfl⟩
  · exact hok f h
  · exact hg y (hok y hy)

theorem up_delete_flow {st : State} (a : Bytes) (id : Nat) (d : Bytes)
    (h : unfragPresent st) :
    unfragPresent (dpi_ipv6_fragmentation_delete_flow st a id d) := by
  unfold dpi_ipv6_fragmentation_delete_flow
  cases hfs : findSource st a with
  | none => simpa [hfs] using h
  | some s =>
    cases hff : findFlowIn s.flows id d with
    | none => simpa [hfs, hff] using h
    | some f =>
      simp only [hfs, hff]
      exact up_updateSource h
        (fun s0 _ hok f1 hf1 => hok f1 (List.mem_of_mem_eraseP hf1)) rfl

theorem up_delete_source {st : State} (a : Bytes)
    (h : unfragPresent st) :
    unfragPresent (dpi_ipv6_fragmentation_delete_source st a) := by
  unfold dpi_ipv6_fragmentation_delete_source
  cases hfs : findSource st a with
  | none => simpa [hfs] using h
  | some s =>
    simp only [hfs]
    intro x hx f hf
    exact h x (List.mem_of_mem_eraseP hx) f hf

theorem up_foc_source {st : State} (a : Bytes)
    (h : unfragPresent st) :
    unfragPresent (dpi_ipv6_fragmentation_find_or_create_source st a).2 := by
  unfold dpi_ipv6_fragmentation_find_or_create_source
  cases hfs : findSource st a with
  | some s => simpa [hfs] using h
  | none =>
    simp only [hfs]
    intro x hx f hf
    rcases List.mem_cons.1 hx with rfl | hx
    · cases hf
    · exact h x hx f hf

theorem up_evictLoop (a : Bytes) (fuel : Nat) :
    ∀ st : State, unfragPresent st → unfragPresent (evictLoop a fuel st).2 := by
  induction fuel with
  | zero => intro st h; exact h
  | succ n ih =>
    intro st h
    unfold evictLoop
    cases hfs : findSource st a with
    | none => simpa [hfs] using h
    | some s =>
      cases hfl : s.flows with
      | nil => simpa [hfs, hfl] using h
      | cons f rest =>
        simp only [hfs, hfl]
        split
        · split
          · exact up_delete_source a (up_delete_flow a f.id f.dstaddr h)
          · exact ih _ (up_delete_flow a f.id f.dstaddr h)
        · exact h

theorem up_sweepLoop (a : Bytes) (now : Nat) (fuel : Nat) :
    ∀ st : State, unfragPresent st →
      unfragPresent (sweepLoop a now fuel st).2 := by
  induction fuel with
  | zero => intro st h; exact h
  | succ n ih =>
    intro st h
    unfold sweepLoop
    cases ht : st.timers with
    | nil => simpa [ht] using h
    | cons t rest =>
      simp only [ht]
      split
      · split
        · exact up_delete_source t.src (up_delete_flow t.src t.fid t.dst h)
        · exact ih _ (up_delete_flow t.src t.fid t.dst h)
      · exact h

theorem up_build {st : State} (a : Bytes) (id : Nat) (d : Bytes)
    (h : unfragPresent st) :
    unfragPresent
      (dpi_ipv6_fragmentation_build_complete_datagram st a id d).2 := by
  unfold dpi_ipv6_fragmentation_build_complete_datagram
  cases hff : findFlow st a id d with
  | none => simpa [hff] using h
  | some f =>
    simp only [hff]
    split
    · split
      · exact up_delete_source a (up_delete_flow a id d h)
      · exact up_delete_flow a id d h
    · split
      · exact h
      · split
        · exact up_delete_source a (up_delete_flow a id d h)
        · exact up_delete_flow a id d h

theorem up_setFlowLen {st : State} (a : Bytes) (id : Nat) (d : Bytes)
    (v : Nat) (h : unfragPresent st) :
    unfragPresent (setFlowLen st a id d v) := by
  unfold setFlowLen
  cases hff : findFlow st a id d with
  | none => simpa [hff] using h
  | some f =>
    simp only [hff]
    refine up_updateSource h (fun s0 _ hok => ?_) rfl
    exact flows_updFirst_ok hok (fun f1 h1 => h1)

theorem up_insert {st : State} (a : Bytes) (id : Nat) (d : Bytes)
    (data : Bytes) (o e : Nat) (h : unfragPresent st) :
    unfragPresent (insertFragmentIntoFlow st a id d data o e) := by
  unfold insertFragmentIntoFlow
  cases hff : findFlow st a id d with
  | none => simpa [hff] using h
  | some f =>
    simp only [hff]
    refine up_updateSource h (fun s0 _ hok => ?_) rfl
    exact flows_updFirst_ok hok (fun f1 h1 => h1)

theorem up_store {st : State} (a : Bytes) (id : Nat) (d : Bytes)
    (pfx : Bytes) (h : unfragPresent st) :
    unfragPresent (storeUnfragmentable st a id d pfx) := by
  unfold storeUnfragmentable
  cases hff : findFlow st a id d with
  | none => simpa [hff] using h
  | some f =>
    simp only [hff]
    refine up_updateSource h (fun s0 _ hok => ?_) rfl
    exact flows_updFirst_ok hok (fun f1 _ => rfl)

/-- Preservation through the tail of manage after the unfragmentable copy is
in place: MF handling, fragment insertion, completeness check and datagram
construction. -/
theorem up_tail (st5 : State) (a : Bytes) (id : Nat) (d : Bytes)
    (frag : Bytes) (offset stop mf flowlen : Nat)
    (h : unfragPresent st5) :
    unfragPresent (
      if mf = 0 ∧ flowlen ≠ 0 then (none, st5)
      else
        match findFlow (insertFragmentIntoFlow
            (if mf = 0 then setFlowLen st5 a id d stop else st5)
            a id d frag offset stop) a id d with
        | none => (none, insertFragmentIntoFlow
            (if mf = 0 then setFlowLen st5 a id d stop else st5)
            a id d frag offset stop)
        | some fl =>
          if fl.len ≠ 0 ∧
             dpi_reassembly_ip_check_train_of_contiguous_fragments
               fl.fragments then
            dpi_ipv6_fragmentation_build_complete_datagram
              (insertFragmentIntoFlow
                (if mf = 0 then setFlowLen st5 a id d stop else st5)
                a id d frag offset stop) a id d
          else (none, insertFragmentIntoFlow
            (if mf = 0 then setFlowLen st5 a id d stop else st5)
            a id d frag offset stop)).2 := by
  split
  · exact h
  · generalize hq : insertFragmentIntoFlow
      (if mf = 0 then setFlowLen st5 a id d stop else st5)
      a id d frag offset stop = st7
    have h7 : unfragPresent st7 := by
      rw [← hq]
      refine up_insert a id d frag offset stop ?_
      split
      · exact up_setFlowLen a id d stop h
      · exact h
    split
    · exact h7
    · split
      · exact up_build a id d h7
      · exact h7

theorem up_double_update {l : List Source} {p : Source → Bool} {s3 : Source}
    (hfind : l.find? p = some s3)
    (gc gstore : Source → Source)
    {st' : State}
    (hsrc : st'.sources = updFirst p gstore (updFirst p gc l))
    (hpc : p (gc s3) = true)
    (h3 : ∀ x ∈ l, ∀ f ∈ x.flows, f.unfragmentable.isSome = true)
    (hmid : ∀ f ∈ (gstore (gc s3)).flows, f.unfragmentable.isSome = true) :
    unfragPresent st' := by
  intro x hx f hf
  rw [hsrc] at hx
  obtain ⟨l₁, l₂, hl, hl1, hp⟩ := find?_decomp hfind
  subst hl
  rw [updFirst_scan gc hl1 hp, updFirst_scan gstore hl1 hpc] at hx
  rcases List.mem_append.1 hx with hx | hx
  · exact h3 x (List.mem_append_left _ hx) f hf
  · rcases List.mem_cons.1 hx with rfl | hx
    · exact hmid f hf
    · exact h3 x (List.mem_append_right _ (List.mem_cons_of_mem _ hx)) f hf

/-- The fresh flow record allocated by find_or_create_flow on a miss. -/
def mkNewFlow (id : Nat) (d : Bytes) : Flow :=
  { id := id, dstaddr := d, unfragmentable := none, len := 0, fragments := [] }

/-- After find_or_create_flow creates a flow (a lookup miss) and the same
call stores its unfragmentable copy, every flow of the engine has its copy
again: the stored-to flow is the newly prepended head. -/
theorem up_create_store {st3 : State} {a : Bytes} {s3 : Source}
    (id : Nat) (d : Bytes) (t : Nat) (pfx : Bytes)
    (h3 : unfragPresent st3)
    (hfs3 : findSource st3 a = some s3)
    (hff3 : findFlowIn s3.flows id d = none) :
    unfragPresent (storeUnfragmentable
      (dpi_ipv6_fragmentation_find_or_create_flow st3 a id d t).2
      a id d pfx) := by
  have hmatchnew : flowMatch id d (mkNewFlow id d) = true := by
    simp [flowMatch, mkNewFlow, dpi_v6_addresses_equal]
  have hfs4 := findSource_after_update hfs3
    (fun s0 => { s0 with
      source_used_mem := s0.source_used_mem + sizeof_flow,
      flows := mkNewFlow id d :: s0.flows }) rfl rfl
    (dpi_reassembly_add_timer st3.timers
      { expiration_time := t + st3.timeout, src := a, dst := d, fid := id })
    (st3.total_used_mem + sizeof_flow)
  unfold dpi_ipv6_fragmentation_find_or_create_flow
  simp only [hfs3, hff3]
  unfold storeUnfragmentable findFlow
  simp only [mkNewFlow] at hfs4
  simp only [hfs4]
  simp only [show (⟨id, d, none, 0, []⟩ : Flow) = mkNewFlow id d from rfl]
  simp only [show findFlowIn (mkNewFlow id d :: s3.flows) id d =
      some (mkNewFlow id d) from List.find?_cons_of_pos _ hmatchnew]
  unfold findSource dpi_ipv6_fragmentation_hash_function at hfs3
  unfold updateSource dpi_ipv6_fragmentation_hash_function
  refine up_double_update hfs3 _ _ rfl ?_ h3 ?_
  · simpa [sourceMatch, dpi_v6_addresses_equal] using List.find?_some hfs3
  · intro f1 hf1
    have hflows : ∀ fl : List Flow, updFirst (flowMatch id d)
        (fun f0 => { f0 with unfragmentable := some pfx })
        (mkNewFlow id d :: fl) =
        { mkNewFlow id d with unfragmentable := some pfx } :: fl := by
      intro fl
      rw [updFirst, if_pos hmatchnew]
    simp only [hflows] at hf1
    rcases List.mem_cons.1 hf1 with rfl | hf1
    · rfl
    · exact h3 s3 (List.mem_of_find?_eq_some hfs3) f1 hf1

theorem focf_none {st : State} {a : Bytes} {id : Nat} {d : Bytes} {t : Nat}
    {st4 : State}
    (heq : dpi_ipv6_fragmentation_find_or_create_flow st a id d t =
      (none, st4)) :
    st4 = st := by
  unfold dpi_ipv6_fragmentation_find_or_create_flow at heq
  cases hfs : findSource st a with
  | none =>
    simp only [hfs] at heq
    exact (congrArg Prod.snd heq).symm
  | some s =>
    simp only [hfs] at heq
    cases hff : findFlowIn s.flows id d with
    | some f =>
      simp only [hff] at heq
      have := congrArg Prod.fst heq
      simp at this
    | none =>
      simp only [hff] at heq
      have := congrArg Prod.fst heq
      simp at this

theorem focf_some_cases {st : State} {a : Bytes} {id : Nat} {d : Bytes}
    {t : Nat} {flow : Flow} {st4 : State}
    (heq : dpi_ipv6_fragmentation_find_or_create_flow st a id d t =
      (some flow, st4)) :
    (st4 = st ∧
      ∃ s, findSource st a = some s ∧ findFlowIn s.flows id d = some flow) ∨
    (flow = mkNewFlow id d ∧
      ∃ s, findSource st a = some s ∧ findFlowIn s.flows id d = none) := by
  unfold dpi_ipv6_fragmentation_find_or_create_flow at heq
  cases hfs : findSource st a with
  | none =>
    simp only [hfs] at heq
    have := congrArg Prod.fst heq
    simp at this
  | some s =>
    simp only [hfs] at heq
    cases hff : findFlowIn s.flows id d with
    | some f =>
      simp only [hff, Prod.mk.injEq, Option.some.injEq] at heq
      obtain ⟨h1, h2⟩ := heq
      exact Or.inl ⟨h2.symm, s, rfl, h1 ▸ hff⟩
    | none =>
      simp only [hff, Prod.mk.injEq, Option.some.injEq] at heq
      obtain ⟨h1, h2⟩ := heq
      refine Or.inr ⟨?_, s, rfl, hff⟩
      rw [mkNewFlow]
      exact h1.symm

/-- C10.  After every call, every flow still present in the engine has its
unfragmentable copy stored (non-NULL): a newly created flow either receives
its copy during the same call, or — on allocation failure, a branch the model
does not take since allocation is assumed to succeed — is deleted before the
call returns, so the "copy not yet stored" state never survives a call. -/
theorem c10_unfrag_invariant (st : State) (unfrag frag : Bytes)
    (offset mf id nh now : Nat) (h : unfragPresent st) :
    unfragPresent (dpi_reordering_manage_ipv6_fragment st unfrag frag
      offset mf id nh now).2 := by
  simp only [dpi_reordering_manage_ipv6_fragment]
  by_cases hstop : offset + frag.length > DPI_IP_FRAGMENTATION_MAX_DATAGRAM_SIZE
  · simpa [hstop] using h
  · rw [if_neg hstop]
    have h1 := @up_foc_source st (readBytes unfrag 8 16) h
    split
    · rename_i st2 heq2
      have h2 := up_evictLoop (readBytes unfrag 8 16)
        (dpi_ipv6_fragmentation_find_or_create_source st
          (readBytes unfrag 8 16)).1.flows.length
        (dpi_ipv6_fragmentation_find_or_create_source st
          (readBytes unfrag 8 16)).2 h1
      rw [heq2] at h2
      exact h2
    · rename_i st2 heq2
      have h2 := up_evictLoop (readBytes unfrag 8 16)
        (dpi_ipv6_fragmentation_find_or_create_source st
          (readBytes unfrag 8 16)).1.flows.length
        (dpi_ipv6_fragmentation_find_or_create_source st
          (readBytes unfrag 8 16)).2 h1
      rw [heq2] at h2
      split
      · rename_i st3 heq3
        have h3 := up_sweepLoop (readBytes unfrag 8 16) now
          st2.timers.length st2 h2
        rw [heq3] at h3
        exact h3
      · rename_i st3 heq3
        have h3 := up_sweepLoop (readBytes unfrag 8 16) now
          st2.timers.length st2 h2
        rw [heq3] at h3
        split
        · rename_i st4 heq4
          have hst4 := focf_none heq4
          subst hst4
          exact h3
        · rename_i flow st4 heq4
          by_cases hscreen : flow.len ≠ 0 ∧ offset > flow.len
          · rw [if_pos hscreen]
            rcases focf_some_cases heq4 with ⟨hst4, -⟩ | ⟨hflow, -⟩
            · subst hst4; exact h3
            · rw [hflow] at hscreen
              simp [mkNewFlow] at hscreen
          · rw [if_neg hscreen]
            by_cases hisnone : flow.unfragmentable.isNone = true
            · rw [if_pos hisnone]
              have h5 : unfragPresent (storeUnfragmentable st4
                  (readBytes unfrag 8 16) id (readBytes unfrag 24 16)
                  (unfrag.set 6 nh)) := by
                rcases focf_some_cases heq4 with ⟨hst4, -⟩ | ⟨hflow, s3, hs3, hff3⟩
                · subst hst4
                  exact up_store _ _ _ _ h3
                · have hsnd : (dpi_ipv6_fragmentation_find_or_create_flow st3
                      (readBytes unfrag 8 16) id (readBytes unfrag 24 16)
                      now).2 = st4 := congrArg Prod.snd heq4
                  rw [← hsnd]
                  exact up_create_store id (readBytes unfrag 24 16) now _
                    h3 hs3 hff3
              exact up_tail _ _ _ _ _ _ _ _ _ h5
            · rw [if_neg hisnone]
              have h5 : unfragPresent st4 := by
                rcases focf_some_cases heq4 with ⟨hst4, -⟩ | ⟨hflow, -⟩
                · subst hst4; exact h3
                · rw [hflow] at hisnone
                  simp [mkNewFlow] at hisnone
              exact up_tail _ _ _ _ _ _ _ _ _ h5

/-- Witness for c10_unfrag_invariant at a concrete input: the engine left by
the C5 scenario satisfies the invariant, and a further call (a new flow id 9,
single MF=1 fragment) preserves it. -/
theorem c10_unfrag_invariant_witness :
    unfragPresent c5_st2 ∧
    unfragPresent (dpi_reordering_manage_ipv6_fragment c5_st2
      (mkHdr 1 2) (List.replicate 5 4) 0 1 9 59 4).2 :=
  ⟨by decide,
   c10_unfrag_invariant c5_st2 (mkHdr 1 2) (List.replicate 5 4) 0 1 9 59 4
     (by decide)⟩

/-- C1, amended.  On an engine holding no state at all (no sources, no
timers; any engine freshly created, or one whose every datagram has been
delivered or reaped), a call with offset = 0 and more_fragments = 0, a
40-byte-or-longer unfragmentable prefix, at least one fragmentable byte and a
total of at most 65535 bytes returns a newly-allocated buffer: the supplied
prefix with its next-header byte (byte 6) rewritten to next_header and its
payload-length field (bytes 4-5, big-endian) set to
unfragmentable_size + fragmentable_size - 40, followed by exactly the
supplied fragmentable bytes; the flow and its source are removed before the
call returns, leaving the engine exactly as it was.  (The original claim,
which allowed unrelated prior state, is refuted by the counterexample: the
per-source eviction loop can abort such a call.) -/
theorem c1_amended (st : State) (unfrag frag : Bytes) (id nh now : Nat)
    (hsources : st.sources = [])
    (htimers : st.timers = [])
    (hts : 1 ≤ st.table_size)
    (hulen : 40 ≤ unfrag.length)
    (hflen : 1 ≤ frag.length)
    (hsum : unfrag.length + frag.length ≤ 65535) :
    dpi_reordering_manage_ipv6_fragment st unfrag frag 0 0 id nh now =
      (some ((((unfrag.set 6 nh).set 4
          ((unfrag.length + frag.length - 40) / 256)).set 5
          ((unfrag.length + frag.length - 40) % 256)) ++ frag), st) := by
  rcases st with ⟨ts, srcs, tms, tu, psl, tml, tmo⟩
  dsimp only at hsources htimers hts
  subst hsources htimers
  unfold dpi_reordering_manage_ipv6_fragment
  generalize hA : readBytes unfrag 8 16 = A
  generalize hD : readBytes unfrag 24 16 = D
  have hstop : ¬ (0 + frag.length > DPI_IP_FRAGMENTATION_MAX_DATAGRAM_SIZE) := by
    show ¬ (0 + frag.length > 65535)
    omega
  rw [if_neg hstop]
  have e1 : dpi_ipv6_fragmentation_find_or_create_source
      ⟨ts, [], [], tu, psl, tml, tmo⟩ A =
      (⟨A, hashRaw A % ts, sizeof_source, []⟩,
       ⟨ts, [⟨A, hashRaw A % ts, sizeof_source, []⟩], [],
        tu + sizeof_source, psl, tml, tmo⟩) := by
    unfold dpi_ipv6_fragmentation_find_or_create_source findSource
      dpi_ipv6_fragmentation_hash_function
    simp
  simp only [e1]
  have e2 : evictLoop A ([] : List Flow).length
      ⟨ts, [⟨A, hashRaw A % ts, sizeof_source, []⟩], [],
       tu + sizeof_source, psl, tml, tmo⟩ =
      (false, ⟨ts, [⟨A, hashRaw A % ts, sizeof_source, []⟩], [],
       tu + sizeof_source, psl, tml, tmo⟩) := rfl
  simp only [e2]
  have e3 : sweepLoop A now
      (State.timers ⟨ts, [⟨A, hashRaw A % ts, sizeof_source, []⟩], [],
        tu + sizeof_source, psl, tml, tmo⟩).length
      ⟨ts, [⟨A, hashRaw A % ts, sizeof_source, []⟩], [],
       tu + sizeof_source, psl, tml, tmo⟩ =
      (false, ⟨ts, [⟨A, hashRaw A % ts, sizeof_source, []⟩], [],
       tu + sizeof_source, psl, tml, tmo⟩) := rfl
  simp only [e3]
  have e4 : dpi_ipv6_fragmentation_find_or_create_flow
      ⟨ts, [⟨A, hashRaw A % ts, sizeof_source, []⟩], [],
       tu + sizeof_source, psl, tml, tmo⟩ A id D now =
      (some ⟨id, D, none, 0, []⟩,
       ⟨ts, [⟨A, hashRaw A % ts, sizeof_source + sizeof_flow,
              [⟨id, D, none, 0, []⟩]⟩],
        [⟨now + tmo, A, D, id⟩],
        tu + sizeof_source + sizeof_flow, psl, tml, tmo⟩) := by
    unfold dpi_ipv6_fragmentation_find_or_create_flow findSource findFlowIn
      updateSource updFirst dpi_ipv6_fragmentation_hash_function sourceMatch
      dpi_v6_addresses_equal dpi_reassembly_add_timer
    simp [List.find?, updFirst]
  simp only [e4]
  simp only [ne_eq, lt_self_iff_false, and_false, if_false, not_true,
    true_and, and_true, false_and, if_true, Option.isNone_none, Nat.zero_add,
    not_false_eq_true, ite_true, ite_false, gt_iff_lt]
  have e5 : storeUnfragmentable
      ⟨ts, [⟨A, hashRaw A % ts, sizeof_source + sizeof_flow,
             [⟨id, D, none, 0, []⟩]⟩],
       [⟨now + tmo, A, D, id⟩],
       tu + sizeof_source + sizeof_flow, psl, tml, tmo⟩
      A id D (unfrag.set 6 nh) =
      ⟨ts, [⟨A, hashRaw A % ts,
             sizeof_source + sizeof_flow + unfrag.length,
             [⟨id, D, some (unfrag.set 6 nh), 0, []⟩]⟩],
       [⟨now + tmo, A, D, id⟩],
       tu + sizeof_source + sizeof_flow + unfrag.length, psl, tml, tmo⟩ := by
    unfold storeUnfragmentable findFlow findSource findFlowIn updateSource
      updFirst dpi_ipv6_fragmentation_hash_function sourceMatch flowMatch
      dpi_v6_addresses_equal
    simp [List.find?, updFirst]
  simp only [e5]
  have e6 : setFlowLen
      ⟨ts, [⟨A, hashRaw A % ts,
             sizeof_source + sizeof_flow + unfrag.length,
             [⟨id, D, some (unfrag.set 6 nh), 0, []⟩]⟩],
       [⟨now + tmo, A, D, id⟩],
       tu + sizeof_source + sizeof_flow + unfrag.length, psl, tml, tmo⟩
      A id D frag.length =
      ⟨ts, [⟨A, hashRaw A % ts,
             sizeof_source + sizeof_flow + unfrag.length,
             [⟨id, D, some (unfrag.set 6 nh), frag.length, []⟩]⟩],
       [⟨now + tmo, A, D, id⟩],
       tu + sizeof_source + sizeof_flow + unfrag.length, psl, tml, tmo⟩ := by
    unfold setFlowLen findFlow findSource findFlowIn updateSource
      updFirst dpi_ipv6_fragmentation_hash_function sourceMatch flowMatch
      dpi_v6_addresses_equal
    simp [List.find?, updFirst]
  simp only [e6]
  have e7 : insertFragmentIntoFlow
      ⟨ts, [⟨A, hashRaw A % ts,
             sizeof_source + sizeof_flow + unfrag.length,
             [⟨id, D, some (unfrag.set 6 nh), frag.length, []⟩]⟩],
       [⟨now + tmo, A, D, id⟩],
       tu + sizeof_source + sizeof_flow + unfrag.length, psl, tml, tmo⟩
      A id D frag 0 frag.length =
      ⟨ts, [⟨A, hashRaw A % ts,
             sizeof_source + sizeof_flow + unfrag.length + frag.length,
             [⟨id, D, some (unfrag.set 6 nh), frag.length,
               [⟨0, frag.length, frag⟩]⟩]⟩],
       [⟨now + tmo, A, D, id⟩],
       tu + sizeof_source + sizeof_flow + unfrag.length + frag.length,
       psl, tml, tmo⟩ := by
    unfold insertFragmentIntoFlow findFlow findSource findFlowIn updateSource
      updFirst dpi_ipv6_fragmentation_hash_function sourceMatch flowMatch
      dpi_v6_addresses_equal dpi_reassembly_insert_fragment clipOutside
      fragsBytes
    simp [List.find?, updFirst]
  simp only [e7]
  have e8 : findFlow
      ⟨ts, [⟨A, hashRaw A % ts,
             sizeof_source + sizeof_flow + unfrag.length + frag.length,
             [⟨id, D, some (unfrag.set 6 nh), frag.length,
               [⟨0, frag.length, frag⟩]⟩]⟩],
       [⟨now + tmo, A, D, id⟩],
       tu + sizeof_source + sizeof_flow + unfrag.length + frag.length,
       psl, tml, tmo⟩ A id D =
      some ⟨id, D, some (unfrag.set 6 nh), frag.length,
            [⟨0, frag.length, frag⟩]⟩ := by
    unfold findFlow findSource findFlowIn dpi_ipv6_fragmentation_hash_function
      sourceMatch flowMatch dpi_v6_addresses_equal
    simp [List.find?]
  simp only [e8]
  have htrain : dpi_reassembly_ip_check_train_of_contiguous_fragments
      [(⟨0, frag.length, frag⟩ : Frag)] = true := by
    simp [dpi_reassembly_ip_check_train_of_contiguous_fragments, trainFrom]
  have hfl0 : List.length frag ≠ 0 := by omega
  rw [if_pos ⟨hfl0, htrain⟩]
  have hle : ¬ (List.length unfrag + List.length frag > 65535) := by omega
  have hplen : (List.length frag + List.length unfrag + 65536 - 40) % 65536 =
      List.length unfrag + List.length frag - 40 := by omega
  simp [dpi_ipv6_fragmentation_build_complete_datagram, findFlow, findSource,
    findFlowIn, dpi_ipv6_fragmentation_hash_function, sourceMatch, flowMatch,
    dpi_v6_addresses_equal, dpi_reassembly_ip_compact_fragments, fragsBytes,
    sizeof_ip6_hdr, DPI_IP_FRAGMENTATION_MAX_DATAGRAM_SIZE,
    dpi_ipv6_fragmentation_delete_flow, flowMem, sourceFlowsEmpty,
    dpi_reassembly_delete_timer, dpi_ipv6_fragmentation_delete_source,
    flowsMem, updateSource, List.find?, updFirst, List.eraseP, hle, hplen,
    Option.getD]
  constructor
  · have hp : (List.length frag + List.length unfrag + 65496) % 65536 =
        List.length unfrag + List.length frag - 40 := by omega
    rw [hp, List.set_append_left _ _ (by simp; omega),
      List.set_append_left _ _ (by simp; omega)]
  · omega

/-- Witness for c1_amended at a concrete input: a fresh single-bucket engine,
a 40-byte header and a 4-byte payload. -/
theorem c1_amended_witness :
    dpi_reordering_manage_ipv6_fragment
      (dpi_reordering_enable_ipv6_fragmentation 1)
      (mkHdr 1 2) [1, 2, 3, 4] 0 0 5 59 0 =
      (some ((((mkHdr 1 2).set 6 59).set 4
          (((mkHdr 1 2).length + ([1, 2, 3, 4] : Bytes).length - 40) / 256)).set 5
          (((mkHdr 1 2).length + ([1, 2, 3, 4] : Bytes).length - 40) % 256) ++
          [1, 2, 3, 4]),
       dpi_reordering_enable_ipv6_fragmentation 1) :=
  c1_amended (dpi_reordering_enable_ipv6_fragmentation 1) (mkHdr 1 2)
    [1, 2, 3, 4] 5 59 0 rfl rfl (by decide) (by decide) (by decide) (by decide)

/-! Development for C3: the engine's total_used_mem always equals the sum of
source_used_mem over the sources in the table.  The proof maintains a
well-formedness invariant: per-source accounting is exact, cached rows match
the hash, addresses are distinct, and the timer list carries exactly one
timer per flow. -/

/-- Sum of the per-source byte counters. -/
def sourcesMem (l : List Source) : Nat :=
  (l.map Source.source_used_mem).sum

/-- A source's counter accounts exactly for its record and its flows. -/
def sourceOk (s : Source) : Prop :=
  s.source_used_mem = sizeof_source + flowsMem s.flows

/-- The key identifying a flow (with its owning source's address). -/
def flowKey (addr : Bytes) (f : Flow) : Bytes × Bytes × Nat :=
  (addr, f.dstaddr, f.id)

/-- The key carried by a timer node. -/
def timerKey (t : Timer) : Bytes × Bytes × Nat :=
  (t.src, t.dst, t.fid)

/-- The multiset of flow keys of one source. -/
def keysOfFlows (addr : Bytes) (flows : List Flow) :
    Multiset (Bytes × Bytes × Nat) :=
  (flows.map (flowKey addr) : List _)

/-- The multiset of all flow keys in the table. -/
def fkeys (l : List Source) : Multiset (Bytes × Bytes × Nat) :=
  (l.map (fun s => keysOfFlows s.ipv6_srcaddr s.flows)).sum

/-- The multiset of keys on the timer list. -/
def tkeys (timers : List Timer) : Multiset (Bytes × Bytes × Nat) :=
  (timers.map timerKey : List _)

/-- Engine well-formedness: exact per-source accounting, rows cached
consistently with the hash, distinct source addresses, exactly one timer per
flow, and an exact global counter. -/
def WF (st : State) : Prop :=
  (∀ s ∈ st.sources, sourceOk s) ∧
  (∀ s ∈ st.sources, s.row = hashRaw s.ipv6_srcaddr % st.table_size) ∧
  st.sources.Pairwise (fun a b => a.ipv6_srcaddr ≠ b.ipv6_srcaddr) ∧
  tkeys st.timers = fkeys st.sources ∧
  st.total_used_mem = sourcesMem st.sources

/-! Sum bookkeeping for first-match surgery, in addition form. -/

theorem sum_updFirst {p : α → Bool} {l : List α} {a : α} (g : α → α)
    (m : α → Nat) (hfind : l.find? p = some a) :
    ((updFirst p g l).map m).sum + m a = (l.map m).sum + m (g a) := by
  obtain ⟨l₁, l₂, rfl, h1, h2⟩ := find?_decomp hfind
  rw [updFirst_scan g h1 h2]
  simp [List.sum_append]
  omega

theorem sum_eraseP {p : α → Bool} {l : List α} {a : α}
    (m : α → Nat) (hfind : l.find? p = some a) :
    ((l.eraseP p).map m).sum + m a = (l.map m).sum := by
  obtain ⟨l₁, l₂, rfl, h1, h2⟩ := find?_decomp hfind
  rw [eraseP_scan h1 h2]
  simp [List.sum_append]
  omega

theorem mem_le_sum {l : List α} {a : α} (m : α → Nat) (h : a ∈ l) :
    m a ≤ (l.map m).sum := by
  induction l with
  | nil => cases h
  | cons b l ih =>
    rcases List.mem_cons.1 h with rfl | h
    · simp
    · simp only [List.map_cons, List.sum_cons]
      exact Nat.le_add_left _ _ |>.trans (Nat.add_le_add_left (ih h) _)

/-! Accounting for the spec-modelled fragment insertion. -/

theorem clip_le (o e : Nat) (hoe : o ≤ e) (f : Frag) :
    (((clipOutside o e f).map (fun f => f.stop - f.offset)).sum) ≤
      f.stop - f.offset := by
  unfold clipOutside
  have hm1a : min f.stop o ≤ f.stop := Nat.min_le_left _ _
  have hm1b : min f.stop o ≤ o := Nat.min_le_right _ _
  have hm2a : f.offset ≤ max f.offset e := Nat.le_max_left _ _
  have hm2b : e ≤ max f.offset e := Nat.le_max_right _ _
  by_cases h1 : f.offset < min f.stop o <;>
    by_cases h2 : max f.offset e < f.stop <;>
      simp only [h1, h2, if_true, if_false, ite_true, ite_false,
        List.map_append, List.sum_append, List.map_cons, List.map_nil,
        List.sum_cons, List.sum_nil] <;>
      omega

theorem sum_flatten_clip (o e : Nat) (hoe : o ≤ e) (l : List Frag) :
    (((l.map (clipOutside o e)).flatten.map
        (fun f => f.stop - f.offset)).sum) ≤
      ((l.map (fun f => f.stop - f.offset)).sum) := by
  induction l with
  | nil => simp
  | cons f l ih =>
    simp only [List.map_cons, List.flatten_cons, List.map_append,
      List.sum_append, List.sum_cons]
    exact Nat.add_le_add (clip_le o e hoe f) ih

theorem sum_filter_split (q : α → Prop) [DecidablePred q] (m : α → Nat)
    (l : List α) :
    ((l.filter (fun x => decide (q x))).map m).sum +
      ((l.filter (fun x => decide (¬ q x))).map m).sum = (l.map m).sum := by
  induction l with
  | nil => simp
  | cons a l ih =>
    simp only [decide_not] at ih ⊢
    by_cases hq : q a <;> simp [List.filter_cons, hq] <;> omega

/-- Net accounting of the fragment-list insertion: the new list's bytes plus
the reported bytes_removed equal the old bytes plus bytes_inserted, and
bytes_removed never exceeds the old bytes. -/
theorem insert_accounting (frags : List Frag) (data : Bytes) {o e : Nat}
    (hoe : o ≤ e) :
    fragsBytes (dpi_reassembly_insert_fragment frags data o e).1 +
        (dpi_reassembly_insert_fragment frags data o e).2.1 =
      fragsBytes frags + (dpi_reassembly_insert_fragment frags data o e).2.2 ∧
    (dpi_reassembly_insert_fragment frags data o e).2.1 ≤ fragsBytes frags := by
  unfold dpi_reassembly_insert_fragment fragsBytes
  have hkept := sum_flatten_clip o e hoe frags
  have hsplit := sum_filter_split (fun f : Frag => f.stop ≤ o)
    (fun f => f.stop - f.offset) ((frags.map (clipOutside o e)).flatten)
  simp only [List.map_append, List.sum_append, List.map_cons, List.sum_cons]
  constructor
  · omega
  · omega

/-! Multiset bookkeeping for the timer/flow key correspondence. -/

theorem findSource_eq (st : State) (a : Bytes) :
    findSource st a =
      st.sources.find? (sourceMatch (hashRaw a % st.table_size) a) := rfl

theorem timerMatch_key {t : Timer} {a d : Bytes} {i : Nat}
    (h : (t.src == a && t.dst == d && t.fid == i) = true) :
    timerKey t = (a, d, i) := by
  simp only [Bool.and_eq_true, beq_iff_eq] at h
  simp [timerKey, h.1.1, h.1.2, h.2]

theorem flowMatch_key {f : Flow} {i : Nat} {d : Bytes}
    (h : flowMatch i d f = true) (addr : Bytes) :
    flowKey addr f = (addr, d, i) := by
  simp only [flowMatch, dpi_v6_addresses_equal, Bool.and_eq_true,
    beq_iff_eq] at h
  simp [flowKey, h.1, h.2]

theorem tkeys_delete_timer {timers : List Timer} {a d : Bytes} {i : Nat}
    (hk : (a, d, i) ∈ tkeys timers) :
    tkeys (dpi_reassembly_delete_timer timers a d i) + {(a, d, i)} =
      tkeys timers := by
  have hex : ∃ t ∈ timers, (t.src == a && t.dst == d && t.fid == i) = true := by
    simp only [tkeys, Multiset.mem_coe, List.mem_map] at hk
    obtain ⟨t, ht, hkey⟩ := hk
    refine ⟨t, ht, ?_⟩
    simp only [timerKey, Prod.mk.injEq] at hkey
    simp [hkey.1, hkey.2.1, hkey.2.2]
  have hsome : (timers.find?
      (fun t => t.src == a && t.dst == d && t.fid == i)).isSome := by
    rw [List.find?_isSome]
    exact hex
  obtain ⟨t₀, hfind⟩ := Option.isSome_iff_exists.1 hsome
  have hp := List.find?_some hfind
  have hkey := timerMatch_key hp
  obtain ⟨l₁, l₂, rfl, h1, h2⟩ := find?_decomp hfind
  unfold dpi_reassembly_delete_timer
  rw [eraseP_scan h1 h2]
  simp only [tkeys, List.map_append, List.map_cons, ← Multiset.coe_add,
    ← Multiset.cons_coe, ← hkey, ← Multiset.singleton_add]
  abel

theorem keysOfFlows_eraseP {flows : List Flow} {i : Nat} {d : Bytes}
    {f : Flow} (addr : Bytes)
    (hfind : findFlowIn flows i d = some f) :
    keysOfFlows addr (flows.eraseP (flowMatch i d)) + {(addr, d, i)} =
      keysOfFlows addr flows := by
  have hp := List.find?_some hfind
  have hkey := flowMatch_key hp addr
  obtain ⟨l₁, l₂, rfl, h1, h2⟩ := find?_decomp hfind
  rw [eraseP_scan h1 h2]
  simp only [keysOfFlows, List.map_append, List.map_cons, ← Multiset.coe_add,
    ← Multiset.cons_coe, ← hkey, ← Multiset.singleton_add]
  abel

theorem fkeys_updFirst {l : List Source} {p : Source → Bool} {s : Source}
    (g : Source → Source) (hfind : l.find? p = some s) :
    fkeys (updFirst p g l) + keysOfFlows s.ipv6_srcaddr s.flows =
      fkeys l + keysOfFlows (g s).ipv6_srcaddr (g s).flows := by
  obtain ⟨l₁, l₂, rfl, h1, h2⟩ := find?_decomp hfind
  rw [updFirst_scan g h1 h2]
  simp only [fkeys, List.map_append, List.map_cons, List.sum_append,
    List.sum_cons]
  abel

theorem fkeys_eraseP {l : List Source} {p : Source → Bool} {s : Source}
    (hfind : l.find? p = some s) :
    fkeys (l.eraseP p) + keysOfFlows s.ipv6_srcaddr s.flows = fkeys l := by
  obtain ⟨l₁, l₂, rfl, h1, h2⟩ := find?_decomp hfind
  rw [eraseP_scan h1 h2]
  simp only [fkeys, List.map_append, List.map_cons, List.sum_append,
    List.sum_cons]
  abel

theorem keysOfFlows_mem_le {l : List Source} {s : Source} (h : s ∈ l) :
    keysOfFlows s.ipv6_srcaddr s.flows ≤ fkeys l := by
  induction l with
  | nil => cases h
  | cons b l ih =>
    rcases List.mem_cons.1 h with rfl | h
    · simp only [fkeys, List.map_cons, List.sum_cons]
      exact Multiset.le_add_right _ _
    · simp only [fkeys, List.map_cons, List.sum_cons]
      exact (ih h).trans (Multiset.le_add_left _ _)

theorem tkeys_fold_delete (addr : Bytes) (flows : List Flow) :
    ∀ timers : List Timer, keysOfFlows addr flows ≤ tkeys timers →
      tkeys (flows.foldl (fun ts f =>
          dpi_reassembly_delete_timer ts addr f.dstaddr f.id) timers) +
        keysOfFlows addr flows = tkeys timers := by
  induction flows with
  | nil => intro timers _; simp [keysOfFlows]
  | cons f flows ih =>
    intro timers hle
    have hcons : keysOfFlows addr (f :: flows) =
        {flowKey addr f} + keysOfFlows addr flows := by
      simp [keysOfFlows, ← Multiset.cons_coe, ← Multiset.singleton_add]
    have hkmem : flowKey addr f ∈ tkeys timers := by
      have : flowKey addr f ∈ keysOfFlows addr (f :: flows) := by
        simp [keysOfFlows]
      exact Multiset.mem_of_le hle this
    have hdel : tkeys (dpi_reassembly_delete_timer timers addr f.dstaddr f.id)
        + {flowKey addr f} = tkeys timers := by
      have h4 := @tkeys_delete_timer timers addr f.dstaddr f.id
        (by simpa [flowKey] using hkmem)
      simpa [flowKey] using h4
    have hle2 : keysOfFlows addr flows ≤
        tkeys (dpi_reassembly_delete_timer timers addr f.dstaddr f.id) := by
      have h3 : keysOfFlows addr flows + {flowKey addr f} ≤
          tkeys (dpi_reassembly_delete_timer timers addr f.dstaddr f.id) +
            {flowKey addr f} := by
        rw [hdel]
        rw [hcons] at hle
        calc keysOfFlows addr flows + {flowKey addr f}
            = {flowKey addr f} + keysOfFlows addr flows := by abel
          _ ≤ tkeys timers := hle
      exact le_of_add_le_add_right h3
    simp only [List.foldl_cons]
    rw [hcons]
    have := ih (dpi_reassembly_delete_timer timers addr f.dstaddr f.id) hle2
    calc tkeys (flows.foldl _ (dpi_reassembly_delete_timer timers addr
          f.dstaddr f.id)) + ({flowKey addr f} + keysOfFlows addr flows)
        = tkeys (flows.foldl _ (dpi_reassembly_delete_timer timers addr
            f.dstaddr f.id)) + keysOfFlows addr flows + {flowKey addr f} := by
          abel
      _ = tkeys (dpi_reassembly_delete_timer timers addr f.dstaddr f.id) +
            {flowKey addr f} := by rw [this]
      _ = tkeys timers := hdel

theorem pairwise_replace_mid {R : α → α → Prop} {l₁ l₂ : List α} {a b : α}
    (hR1 : ∀ x, R x a → R x b) (hR2 : ∀ x, R a x → R b x)
    (h : (l₁ ++ a :: l₂).Pairwise R) : (l₁ ++ b :: l₂).Pairwise R := by
  rw [List.pairwise_append] at h ⊢
  obtain ⟨hp1, hp2, hp3⟩ := h
  rw [List.pairwise_cons] at hp2
  refine ⟨hp1, List.pairwise_cons.2
    ⟨fun y hy => hR2 y (hp2.1 y hy), hp2.2⟩, ?_⟩
  intro x hx y hy
  rcases List.mem_cons.1 hy with rfl | hy
  · exact hR1 x (hp3 x hx a (by simp))
  · exact hp3 x hx y (by simp [hy])

theorem updateSource_eq (st : State) (a : Bytes) (g : Source → Source) :
    updateSource st a g =
      updFirst (sourceMatch (hashRaw a % st.table_size) a) g st.sources := rfl

theorem findFlowIn_eq (flows : List Flow) (i : Nat) (d : Bytes) :
    findFlowIn flows i d = flows.find? (flowMatch i d) := rfl

/-- Core preservation: mutating the record a valid source pointer designates,
preserving its address, row and exact accounting, and adjusting the timer
list and the global counter consistently, preserves well-formedness. -/
theorem WF_update_core (st : State) (a : Bytes) {s : Source}
    (g : Source → Source) (hwf : WF st) (hfs : findSource st a = some s)
    (hrowg : (g s).row = s.row)
    (haddrg : (g s).ipv6_srcaddr = s.ipv6_srcaddr)
    (hokg : sourceOk (g s))
    (timers' : List Timer)
    (htk : tkeys timers' + keysOfFlows s.ipv6_srcaddr s.flows =
      tkeys st.timers + keysOfFlows (g s).ipv6_srcaddr (g s).flows)
    (tu' : Nat)
    (htu : tu' + s.source_used_mem =
      st.total_used_mem + (g s).source_used_mem) :
    WF { st with sources := updateSource st a g, timers := timers',
                 total_used_mem := tu' } := by
  obtain ⟨hok, hrow, hdist, hperm, htot⟩ := hwf
  rw [findSource_eq] at hfs
  have hsum := sum_updFirst g Source.source_used_mem hfs
  have hkeys := fkeys_updFirst g hfs
  obtain ⟨l₁, l₂, hsplit, hl1, hl2⟩ := find?_decomp hfs
  have hupd : updateSource st a g = l₁ ++ g s :: l₂ := by
    rw [updateSource_eq, hsplit]
    exact updFirst_scan g hl1 hl2
  have hsmem : s ∈ st.sources := by rw [hsplit]; simp
  refine ⟨?_, ?_, ?_, ?_, ?_⟩
  · intro x hx
    rw [hupd] at hx
    rcases List.mem_append.1 hx with hx | hx
    · exact hok x (by rw [hsplit]; exact List.mem_append_left _ hx)
    · rcases List.mem_cons.1 hx with rfl | hx
      · exact hokg
      · refine hok x ?_
        rw [hsplit]
        exact List.mem_append_right _ (List.mem_cons_of_mem _ hx)
  · intro x hx
    rw [hupd] at hx
    rcases List.mem_append.1 hx with hx | hx
    · exact hrow x (by rw [hsplit]; exact List.mem_append_left _ hx)
    · rcases List.mem_cons.1 hx with rfl | hx
      · rw [hrowg, haddrg]
        exact hrow s hsmem
      · refine hrow x ?_
        rw [hsplit]
        exact List.mem_append_right _ (List.mem_cons_of_mem _ hx)
  · rw [hupd]
    rw [hsplit] at hdist
    refine pairwise_replace_mid ?_ ?_ hdist
    · intro x hx
      rw [haddrg]
      exact hx
    · intro x hx
      rw [haddrg]
      exact hx
  · have e1 : tkeys timers' + keysOfFlows s.ipv6_srcaddr s.flows =
        fkeys (updateSource st a g) + keysOfFlows s.ipv6_srcaddr s.flows := by
      rw [htk, hperm]
      rw [updateSource_eq]
      calc fkeys st.sources + keysOfFlows (g s).ipv6_srcaddr (g s).flows
          = fkeys (updFirst (sourceMatch (hashRaw a % st.table_size) a) g
              st.sources) + keysOfFlows s.ipv6_srcaddr s.flows := by
            rw [← hkeys]
        _ = _ := rfl
    exact add_right_cancel e1
  · show tu' = sourcesMem (updateSource st a g)
    have : tu' + s.source_used_mem = sourcesMem (updateSource st a g)
        + s.source_used_mem := by
      rw [htu, htot]
      rw [updateSource_eq]
      have : sourcesMem (updFirst (sourceMatch (hashRaw a % st.table_size) a)
          g st.sources) + s.source_used_mem =
          sourcesMem st.sources + (g s).source_used_mem := hsum
      unfold sourcesMem at this ⊢
      omega
    omega

/-- delete_flow preserves well-formedness. -/
theorem wf_delete_flow (st : State) (a : Bytes) (i : Nat) (d : Bytes)
    (hwf : WF st) : WF (dpi_ipv6_fragmentation_delete_flow st a i d) := by
  unfold dpi_ipv6_fragmentation_delete_flow
  cases hfs : findSource st a with
  | none => simpa [hfs] using hwf
  | some s =>
    cases hff : findFlowIn s.flows i d with
    | none => simpa [hfs, hff] using hwf
    | some f =>
      simp only [hfs, hff]
      obtain ⟨hok, hrow, hdist, hperm, htot⟩ := hwf
      rw [findSource_eq] at hfs
      have hps := List.find?_some hfs
      have hra := sourceMatch_self _ _ _ hps
      rw [findFlowIn_eq] at hff
      have hfm := List.find?_some hff
      have hsmem : s ∈ st.sources := List.mem_of_find?_eq_some hfs
      have hfmem : f ∈ s.flows := List.mem_of_find?_eq_some hff
      have hsok : sourceOk s := hok s hsmem
      have hfle : flowMem f ≤ flowsMem s.flows := mem_le_sum flowMem hfmem
      have herase : flowsMem (s.flows.eraseP (flowMatch i d)) + flowMem f =
          flowsMem s.flows := sum_eraseP flowMem hff
      have hkey : flowKey s.ipv6_srcaddr f = (a, d, i) := by
        rw [hra.2]
        exact flowMatch_key hfm a
      have hkmem : (a, d, i) ∈ tkeys st.timers := by
        rw [hperm]
        refine Multiset.mem_of_le (keysOfFlows_mem_le hsmem) ?_
        rw [← hkey]
        simp only [keysOfFlows, Multiset.mem_coe, List.mem_map]
        exact ⟨f, hfmem, rfl⟩
      have hdel := @tkeys_delete_timer st.timers a d i hkmem
      have hker : keysOfFlows s.ipv6_srcaddr
          (s.flows.eraseP (flowMatch i d)) + {(a, d, i)} =
          keysOfFlows s.ipv6_srcaddr s.flows := by
        have := keysOfFlows_eraseP s.ipv6_srcaddr hff
        rw [hra.2] at this ⊢
        exact this
      refine WF_update_core st a _ ⟨hok, hrow, hdist, hperm, htot⟩
        (by rw [findSource_eq]; exact hfs) rfl rfl ?_ _ ?_ _ ?_
      · unfold sourceOk at hsok ⊢
        simp only []
        rw [← herase] at hsok
        omega
      · calc tkeys (dpi_reassembly_delete_timer st.timers a d i) +
            keysOfFlows s.ipv6_srcaddr s.flows
            = tkeys (dpi_reassembly_delete_timer st.timers a d i) +
              ({(a, d, i)} + keysOfFlows s.ipv6_srcaddr
                (s.flows.eraseP (flowMatch i d))) := by
              rw [← hker]; abel
          _ = tkeys st.timers + keysOfFlows s.ipv6_srcaddr
                (s.flows.eraseP (flowMatch i d)) := by
              rw [← hdel]; abel
          _ = _ := rfl
      · simp only []
        unfold sourceOk at hsok
        have hsle : s.source_used_mem ≤ sourcesMem st.sources :=
          mem_le_sum Source.source_used_mem hsmem
        omega

theorem pairwise_remove_mid {R : α → α → Prop} {l₁ l₂ : List α} {a : α}
    (h : (l₁ ++ a :: l₂).Pairwise R) : (l₁ ++ l₂).Pairwise R := by
  rw [List.pairwise_append] at h ⊢
  obtain ⟨hp1, hp2, hp3⟩ := h
  rw [List.pairwise_cons] at hp2
  exact ⟨hp1, hp2.2, fun x hx y hy => hp3 x hx y (by simp [hy])⟩

theorem map_updFirst_congr {p : α → Bool} {g : α → α} (m : α → β)
    (hm : ∀ x, m (g x) = m x) :
    ∀ l : List α, (updFirst p g l).map m = l.map m := by
  intro l
  induction l with
  | nil => rfl
  | cons x xs ih =>
    by_cases hp : p x
    · simp [updFirst, hp, hm]
    · simp [updFirst, hp, ih]

theorem findFlow_elim {st : State} {a : Bytes} {i : Nat} {d : Bytes} {f : Flow}
    (h : findFlow st a i d = some f) :
    ∃ s, findSource st a = some s ∧ findFlowIn s.flows i d = some f := by
  unfold findFlow at h
  cases hfs : findSource st a with
  | none => rw [hfs] at h; cases h
  | some s => rw [hfs] at h; exact ⟨s, rfl, h⟩

/-- delete_source preserves well-formedness. -/
theorem wf_delete_source (st : State) (a : Bytes) (hwf : WF st) :
    WF (dpi_ipv6_fragmentation_delete_source st a) := by
  obtain ⟨hok, hrow, hdist, hperm, htot⟩ := hwf
  unfold dpi_ipv6_fragmentation_delete_source dpi_ipv6_fragmentation_hash_function
  cases hfs : findSource st a with
  | none => exact ⟨hok, hrow, hdist, hperm, htot⟩
  | some s =>
    simp only [hfs]
    rw [findSource_eq] at hfs
    have hra := sourceMatch_self _ _ _ (List.find?_some hfs)
    have hsmem : s ∈ st.sources := List.mem_of_find?_eq_some hfs
    have hsok : sourceOk s := hok s hsmem
    have hse := sum_eraseP Source.source_used_mem hfs
    have hsle := mem_le_sum Source.source_used_mem hsmem
    obtain ⟨l₁, l₂, hsplit, hl1, hl2⟩ := find?_decomp hfs
    have her : st.sources.eraseP
        (sourceMatch (hashRaw a % st.table_size) a) = l₁ ++ l₂ := by
      rw [hsplit]; exact eraseP_scan hl1 hl2
    refine ⟨?_, ?_, ?_, ?_, ?_⟩
    · intro x hx
      rw [her] at hx
      rcases List.mem_append.1 hx with hx | hx
      · exact hok x (by rw [hsplit]; exact List.mem_append_left _ hx)
      · refine hok x ?_
        rw [hsplit]
        exact List.mem_append_right _ (List.mem_cons_of_mem _ hx)
    · intro x hx
      rw [her] at hx
      rcases List.mem_append.1 hx with hx | hx
      · exact hrow x (by rw [hsplit]; exact List.mem_append_left _ hx)
      · refine hrow x ?_
        rw [hsplit]
        exact List.mem_append_right _ (List.mem_cons_of_mem _ hx)
    · rw [her]
      rw [hsplit] at hdist
      exact pairwise_remove_mid hdist
    · have hle : keysOfFlows a s.flows ≤ tkeys st.timers := by
        rw [hperm, ← hra.2]
        exact keysOfFlows_mem_le hsmem
      have hfold := tkeys_fold_delete a s.flows st.timers hle
      have hfk := fkeys_eraseP hfs
      rw [hra.2] at hfk
      have hkey2 : tkeys (s.flows.foldl
          (fun ts f => dpi_reassembly_delete_timer ts a f.dstaddr f.id)
          st.timers) + keysOfFlows a s.flows =
          fkeys (st.sources.eraseP
            (sourceMatch (hashRaw a % st.table_size) a)) +
          keysOfFlows a s.flows := by
        rw [hfold, hperm, ← hfk]
      exact add_right_cancel hkey2
    · show st.total_used_mem - (flowsMem s.flows + sizeof_source) =
        sourcesMem (st.sources.eraseP
          (sourceMatch (hashRaw a % st.table_size) a))
      unfold sourceOk at hsok
      unfold sourcesMem at htot ⊢
      omega

/-- find_or_create_source preserves well-formedness: the fresh record is
exactly charged, lives in its hash bucket, and carries a new address. -/
theorem wf_foc_source (st : State) (a : Bytes) (hwf : WF st) :
    WF (dpi_ipv6_fragmentation_find_or_create_source st a).2 := by
  obtain ⟨hok, hrow, hdist, hperm, htot⟩ := hwf
  unfold dpi_ipv6_fragmentation_find_or_create_source
  cases hfs : findSource st a with
  | some s =>
    simp only [hfs]
    exact ⟨hok, hrow, hdist, hperm, htot⟩
  | none =>
    simp only [hfs]
    rw [findSource_eq] at hfs
    have hfresh : ∀ x ∈ st.sources, x.ipv6_srcaddr ≠ a := by
      intro x hx heq
      have hfalse := List.find?_eq_none.1 hfs x hx
      apply hfalse
      simp [sourceMatch, dpi_v6_addresses_equal, heq, hrow x hx]
    refine ⟨?_, ?_, ?_, ?_, ?_⟩
    · intro x hx
      rcases List.mem_cons.1 hx with rfl | hx
      · show sizeof_source = sizeof_source + flowsMem []
        simp [flowsMem]
      · exact hok x hx
    · intro x hx
      rcases List.mem_cons.1 hx with rfl | hx
      · rfl
      · exact hrow x hx
    · exact List.pairwise_cons.2
        ⟨fun y hy h => hfresh y hy h.symm, hdist⟩
    · show tkeys st.timers =
        fkeys ({ ipv6_srcaddr := a,
                 row := dpi_ipv6_fragmentation_hash_function st a,
                 source_used_mem := sizeof_source, flows := [] } :: st.sources)
      simp only [fkeys, List.map_cons, List.sum_cons]
      have : keysOfFlows a ([] : List Flow) = 0 := rfl
      rw [this, zero_add]
      exact hperm
    · show st.total_used_mem + sizeof_source =
        sourcesMem ({ ipv6_srcaddr := a,
                      row := dpi_ipv6_fragmentation_hash_function st a,
                      source_used_mem := sizeof_source,
                      flows := [] } :: st.sources)
      unfold sourcesMem at htot ⊢
      simp only [List.map_cons, List.sum_cons]
      omega

/-- find_or_create_flow preserves well-formedness: the fresh flow is exactly
charged and its timer is enrolled. -/
theorem wf_foc_flow (st : State) (a : Bytes) (i : Nat) (d : Bytes) (t : Nat)
    (hwf : WF st) :
    WF (dpi_ipv6_fragmentation_find_or_create_flow st a i d t).2 := by
  unfold dpi_ipv6_fragmentation_find_or_create_flow
  cases hfs : findSource st a with
  | none => simp only [hfs]; exact hwf
  | some s =>
    cases hff : findFlowIn s.flows i d with
    | some f => simp only [hfs, hff]; exact hwf
    | none =>
      simp only [hfs, hff]
      have hfs' := hfs
      rw [findSource_eq] at hfs'
      have hra := sourceMatch_self _ _ _ (List.find?_some hfs')
      have hsmem : s ∈ st.sources := List.mem_of_find?_eq_some hfs'
      have hsok : sourceOk s := hwf.1 s hsmem
      refine WF_update_core st a _ hwf hfs rfl rfl ?_ _ ?_ _ ?_
      · show s.source_used_mem + sizeof_flow = sizeof_source +
          flowsMem ({ id := i, dstaddr := d, unfragmentable := none,
                      len := 0, fragments := [] } :: s.flows)
        unfold sourceOk at hsok
        unfold flowsMem at hsok ⊢
        simp only [List.map_cons, List.sum_cons]
        have : flowMem { id := i, dstaddr := d, unfragmentable := none,
                         len := 0, fragments := [] } = sizeof_flow := by
          simp [flowMem, fragsBytes]
        rw [this]
        omega
      · show tkeys (dpi_reassembly_add_timer st.timers
            { expiration_time := t + st.timeout, src := a, dst := d,
              fid := i }) + keysOfFlows s.ipv6_srcaddr s.flows =
          tkeys st.timers + keysOfFlows s.ipv6_srcaddr
            ({ id := i, dstaddr := d, unfragmentable := none,
               len := 0, fragments := [] } :: s.flows)
        unfold dpi_reassembly_add_timer
        have h1 : tkeys (st.timers ++
            [{ expiration_time := t + st.timeout, src := a, dst := d,
               fid := i }]) = tkeys st.timers + {(a, d, i)} := by
          simp [tkeys, List.map_append, ← Multiset.coe_add, timerKey]
        have h2 : keysOfFlows s.ipv6_srcaddr
            ({ id := i, dstaddr := d, unfragmentable := none,
               len := 0, fragments := [] } :: s.flows) =
            {(s.ipv6_srcaddr, d, i)} + keysOfFlows s.ipv6_srcaddr s.flows := by
          simp [keysOfFlows, ← Multiset.cons_coe, ← Multiset.singleton_add,
            flowKey]
        rw [h1, h2, hra.2]
        abel
      · show st.total_used_mem + sizeof_flow + s.source_used_mem =
          st.total_used_mem + (s.source_used_mem + sizeof_flow)
        omega

/-- storeUnfragmentable preserves well-formedness, provided the designated
flow has no stored copy yet (the only situation in which manage calls it). -/
theorem wf_store (st : State) (a : Bytes) (i : Nat) (d : Bytes) (pfx : Bytes)
    (hwf : WF st)
    (hnone : ∀ f, findFlow st a i d = some f → f.unfragmentable = none) :
    WF (storeUnfragmentable st a i d pfx) := by
  unfold storeUnfragmentable
  cases hff : findFlow st a i d with
  | none => simp only [hff]; exact hwf
  | some f =>
    simp only [hff]
    have hn := hnone f hff
    obtain ⟨s, hfs, hffin⟩ := findFlow_elim hff
    have hfs' := hfs
    rw [findSource_eq] at hfs'
    have hsmem : s ∈ st.sources := List.mem_of_find?_eq_some hfs'
    have hffin' := hffin
    rw [findFlowIn_eq] at hffin'
    have hsok : sourceOk s := hwf.1 s hsmem
    have hflowsum := sum_updFirst
      (fun f0 => { f0 with unfragmentable := some pfx }) flowMem hffin'
    refine WF_update_core st a _ hwf hfs rfl rfl ?_ _ ?_ _ ?_
    · show s.source_used_mem + pfx.length = sizeof_source +
        flowsMem (updFirst (flowMatch i d)
          (fun f0 => { f0 with unfragmentable := some pfx }) s.flows)
      have hmf : flowMem f = sizeof_flow + fragsBytes f.fragments := by
        simp [flowMem, hn]
      have hmf2 : flowMem { f with unfragmentable := some pfx } =
          sizeof_flow + fragsBytes f.fragments + pfx.length := by
        simp [flowMem]
      unfold sourceOk at hsok
      unfold flowsMem at hsok ⊢
      rw [hmf, hmf2] at hflowsum
      omega
    · show tkeys st.timers + keysOfFlows s.ipv6_srcaddr s.flows =
        tkeys st.timers + keysOfFlows s.ipv6_srcaddr
          (updFirst (flowMatch i d)
            (fun f0 => { f0 with unfragmentable := some pfx }) s.flows)
      have : keysOfFlows s.ipv6_srcaddr (updFirst (flowMatch i d)
          (fun f0 => { f0 with unfragmentable := some pfx }) s.flows) =
          keysOfFlows s.ipv6_srcaddr s.flows := by
        unfold keysOfFlows
        rw [@map_updFirst_congr Flow (Bytes × Bytes × Nat) (flowMatch i d)
          (fun f0 => { f0 with unfragmentable := some pfx })
          (flowKey s.ipv6_srcaddr) (fun x => rfl) s.flows]
      rw [this]
    · show st.total_used_mem + pfx.length + s.source_used_mem =
        st.total_used_mem + (s.source_used_mem + pfx.length)
      omega

/-- setFlowLen preserves well-formedness: the declared length takes part in
no accounting. -/
theorem wf_setFlowLen (st : State) (a : Bytes) (i : Nat) (d : Bytes) (v : Nat)
    (hwf : WF st) : WF (setFlowLen st a i d v) := by
  unfold setFlowLen
  cases hff : findFlow st a i d with
  | none => simp only [hff]; exact hwf
  | some f =>
    simp only [hff]
    obtain ⟨s, hfs, hffin⟩ := findFlow_elim hff
    have hfs' := hfs
    rw [findSource_eq] at hfs'
    have hsmem : s ∈ st.sources := List.mem_of_find?_eq_some hfs'
    have hsok : sourceOk s := hwf.1 s hsmem
    refine WF_update_core st a _ hwf hfs rfl rfl ?_ _ ?_ _ ?_
    · show s.source_used_mem = sizeof_source +
        flowsMem (updFirst (flowMatch i d)
          (fun f0 => { f0 with len := v }) s.flows)
      have : flowsMem (updFirst (flowMatch i d)
          (fun f0 => { f0 with len := v }) s.flows) = flowsMem s.flows := by
        unfold flowsMem
        rw [@map_updFirst_congr Flow Nat (flowMatch i d)
          (fun f0 => { f0 with len := v }) flowMem (fun x => rfl) s.flows]
      rw [this]
      exact hsok
    · show tkeys st.timers + keysOfFlows s.ipv6_srcaddr s.flows =
        tkeys st.timers + keysOfFlows s.ipv6_srcaddr
          (updFirst (flowMatch i d) (fun f0 => { f0 with len := v }) s.flows)
      have : keysOfFlows s.ipv6_srcaddr (updFirst (flowMatch i d)
          (fun f0 => { f0 with len := v }) s.flows) =
          keysOfFlows s.ipv6_srcaddr s.flows := by
        unfold keysOfFlows
        rw [@map_updFirst_congr Flow (Bytes × Bytes × Nat) (flowMatch i d)
          (fun f0 => { f0 with len := v })
          (flowKey s.ipv6_srcaddr) (fun x => rfl) s.flows]
      rw [this]
    · show st.total_used_mem + s.source_used_mem =
        st.total_used_mem + s.source_used_mem
      rfl

/-- insertFragmentIntoFlow preserves well-formedness: the reported deltas
match the fragment list's byte change exactly. -/
theorem wf_insert (st : State) (a : Bytes) (i : Nat) (d : Bytes)
    (data : Bytes) (o e : Nat) (hoe : o ≤ e) (hwf : WF st) :
    WF (insertFragmentIntoFlow st a i d data o e) := by
  unfold insertFragmentIntoFlow
  cases hff : findFlow st a i d with
  | none => simp only [hff]; exact hwf
  | some f =>
    simp only [hff]
    obtain ⟨s, hfs, hffin⟩ := findFlow_elim hff
    have hfs' := hfs
    rw [findSource_eq] at hfs'
    have hsmem : s ∈ st.sources := List.mem_of_find?_eq_some hfs'
    have hffin' := hffin
    rw [findFlowIn_eq] at hffin'
    have hfmem : f ∈ s.flows := List.mem_of_find?_eq_some hffin'
    have hsok : sourceOk s := hwf.1 s hsmem
    have htot := hwf.2.2.2.2
    have haccount := insert_accounting f.fragments data hoe
    have hflowsum := sum_updFirst
      (fun f0 => { f0 with
        fragments := (dpi_reassembly_insert_fragment f.fragments data o e).1 })
      flowMem hffin'
    have hfle : flowMem f ≤ flowsMem s.flows := mem_le_sum flowMem hfmem
    have hsle : s.source_used_mem ≤ sourcesMem st.sources :=
      mem_le_sum Source.source_used_mem hsmem
    have hmf : flowMem f = sizeof_flow + fragsBytes f.fragments +
        (f.unfragmentable.getD []).length := rfl
    have hmf2 : flowMem { f with
        fragments := (dpi_reassembly_insert_fragment f.fragments data o e).1 } =
        sizeof_flow +
          fragsBytes (dpi_reassembly_insert_fragment f.fragments data o e).1 +
          (f.unfragmentable.getD []).length := rfl
    refine WF_update_core st a _ hwf hfs rfl rfl ?_ _ ?_ _ ?_
    · show s.source_used_mem +
          (dpi_reassembly_insert_fragment f.fragments data o e).2.2 -
          (dpi_reassembly_insert_fragment f.fragments data o e).2.1 =
        sizeof_source + flowsMem (updFirst (flowMatch i d)
          (fun f0 => { f0 with fragments :=
            (dpi_reassembly_insert_fragment f.fragments data o e).1 }) s.flows)
      unfold sourceOk at hsok
      unfold flowsMem at hsok hfle ⊢
      rw [hmf, hmf2] at hflowsum
      omega
    · show tkeys st.timers + keysOfFlows s.ipv6_srcaddr s.flows =
        tkeys st.timers + keysOfFlows s.ipv6_srcaddr
          (updFirst (flowMatch i d)
            (fun f0 => { f0 with fragments :=
              (dpi_reassembly_insert_fragment f.fragments data o e).1 })
            s.flows)
      have : keysOfFlows s.ipv6_srcaddr (updFirst (flowMatch i d)
          (fun f0 => { f0 with fragments :=
            (dpi_reassembly_insert_fragment f.fragments data o e).1 })
          s.flows) = keysOfFlows s.ipv6_srcaddr s.flows := by
        unfold keysOfFlows
        rw [@map_updFirst_congr Flow (Bytes × Bytes × Nat) (flowMatch i d)
          (fun f0 => { f0 with fragments :=
            (dpi_reassembly_insert_fragment f.fragments data o e).1 })
          (flowKey s.ipv6_srcaddr) (fun x => rfl) s.flows]
      rw [this]
    · show st.total_used_mem +
          (dpi_reassembly_insert_fragment f.fragments data o e).2.2 -
          (dpi_reassembly_insert_fragment f.fragments data o e).2.1 +
          s.source_used_mem =
        st.total_used_mem + (s.source_used_mem +
          (dpi_reassembly_insert_fragment f.fragments data o e).2.2 -
          (dpi_reassembly_insert_fragment f.fragments data o e).2.1)
      unfold sourceOk at hsok
      unfold flowsMem at hsok hfle
      unfold sourcesMem at htot hsle
      rw [hmf] at hfle
      omega

/-- build_complete_datagram preserves well-formedness: every exit path is a
composition of delete_flow and delete_source (or leaves the state alone). -/
theorem wf_build (st : State) (a : Bytes) (i : Nat) (d : Bytes)
    (hwf : WF st) :
    WF (dpi_ipv6_fragmentation_build_complete_datagram st a i d).2 := by
  unfold dpi_ipv6_fragmentation_build_complete_datagram
  cases hff : findFlow st a i d with
  | none => simp only [hff]; exact hwf
  | some f =>
    simp only [hff]
    split
    · split
      · exact wf_delete_source _ a (wf_delete_flow st a i d hwf)
      · exact wf_delete_flow st a i d hwf
    · split
      · exact hwf
      · split
        · exact wf_delete_source _ a (wf_delete_flow st a i d hwf)
        · exact wf_delete_flow st a i d hwf

/-- The per-source eviction loop preserves well-formedness. -/
theorem wf_evictLoop (a : Bytes) (fuel : Nat) :
    ∀ st : State, WF st → WF (evictLoop a fuel st).2 := by
  induction fuel with
  | zero => intro st h; exact h
  | succ n ih =>
    intro st h
    unfold evictLoop
    cases hfs : findSource st a with
    | none => simp only [hfs]; exact h
    | some s =>
      cases hfl : s.flows with
      | nil => simp only [hfs, hfl]; exact h
      | cons f rest =>
        simp only [hfs, hfl]
        split
        · split
          · exact wf_delete_source _ a (wf_delete_flow st a f.id f.dstaddr h)
          · exact ih _ (wf_delete_flow st a f.id f.dstaddr h)
        · exact h

/-- The timer/global-memory sweep preserves well-formedness. -/
theorem wf_sweepLoop (a : Bytes) (now : Nat) (fuel : Nat) :
    ∀ st : State, WF st → WF (sweepLoop a now fuel st).2 := by
  induction fuel with
  | zero => intro st h; exact h
  | succ n ih =>
    intro st h
    unfold sweepLoop
    cases ht : st.timers with
    | nil => simp only [ht]; exact h
    | cons t rest =>
      simp only [ht]
      split
      · split
        · exact wf_delete_source _ t.src
            (wf_delete_flow st t.src t.fid t.dst h)
        · exact ih _ (wf_delete_flow st t.src t.fid t.dst h)
      · exact h

/-- After find_or_create_flow creates a flow (a lookup miss), the flow found
under its key in the updated engine is the fresh record (which holds no
unfragmentable copy yet). -/
theorem findFlow_after_create {st3 : State} {a : Bytes} {s3 : Source}
    (id : Nat) (d : Bytes) (t : Nat)
    (hfs3 : findSource st3 a = some s3)
    (hff3 : findFlowIn s3.flows id d = none) :
    findFlow (dpi_ipv6_fragmentation_find_or_create_flow st3 a id d t).2
      a id d = some (mkNewFlow id d) := by
  have hmatchnew : flowMatch id d (mkNewFlow id d) = true := by
    simp [flowMatch, mkNewFlow, dpi_v6_addresses_equal]
  have hfs4 := findSource_after_update hfs3
    (fun s0 => { s0 with
      source_used_mem := s0.source_used_mem + sizeof_flow,
      flows := mkNewFlow id d :: s0.flows }) rfl rfl
    (dpi_reassembly_add_timer st3.timers
      { expiration_time := t + st3.timeout, src := a, dst := d, fid := id })
    (st3.total_used_mem + sizeof_flow)
  unfold dpi_ipv6_fragmentation_find_or_create_flow
  simp only [hfs3, hff3]
  unfold findFlow
  simp only [mkNewFlow] at hfs4
  simp only [hfs4]
  simp only [show (⟨id, d, none, 0, []⟩ : Flow) = mkNewFlow id d from rfl]
  exact List.find?_cons_of_pos _ hmatchnew

/-- Well-formedness is preserved by the tail of manage after the
unfragmentable copy is settled: MF handling, fragment insertion, completeness
check and datagram construction. -/
theorem wf_tail (st5 : State) (a : Bytes) (id : Nat) (d : Bytes)
    (frag : Bytes) (offset stop mf flowlen : Nat)
    (hoe : offset ≤ stop)
    (h : WF st5) :
    WF (
      if mf = 0 ∧ flowlen ≠ 0 then ((none : Option Bytes), st5)
      else
        match findFlow (insertFragmentIntoFlow
            (if mf = 0 then setFlowLen st5 a id d stop else st5)
            a id d frag offset stop) a id d with
        | none => (none, insertFragmentIntoFlow
            (if mf = 0 then setFlowLen st5 a id d stop else st5)
            a id d frag offset stop)
        | some fl =>
          if fl.len ≠ 0 ∧
             dpi_reassembly_ip_check_train_of_contiguous_fragments
               fl.fragments then
            dpi_ipv6_fragmentation_build_complete_datagram
              (insertFragmentIntoFlow
                (if mf = 0 then setFlowLen st5 a id d stop else st5)
                a id d frag offset stop) a id d
          else (none, insertFragmentIntoFlow
            (if mf = 0 then setFlowLen st5 a id d stop else st5)
            a id d frag offset stop)).2 := by
  split
  · exact h
  · generalize hq : insertFragmentIntoFlow
      (if mf = 0 then setFlowLen st5 a id d stop else st5)
      a id d frag offset stop = st7
    have h7 : WF st7 := by
      rw [← hq]
      refine wf_insert _ a id d frag offset stop hoe ?_
      split
      · exact wf_setFlowLen st5 a id d stop h
      · exact h
    split
    · exact h7
    · split
      · exact wf_build st7 a id d h7
      · exact h7

/-- Well-formedness — in particular the exact global memory accounting — is
preserved by every call to manage. -/
theorem wf_manage (st : State) (unfrag frag : Bytes)
    (offset mf id nh now : Nat) (h : WF st) :
    WF (dpi_reordering_manage_ipv6_fragment st unfrag frag
      offset mf id nh now).2 := by
  simp only [dpi_reordering_manage_ipv6_fragment]
  by_cases hstop : offset + frag.length > DPI_IP_FRAGMENTATION_MAX_DATAGRAM_SIZE
  · simpa [hstop] using h
  · rw [if_neg hstop]
    have h1 := wf_foc_source st (readBytes unfrag 8 16) h
    split
    · rename_i st2 heq2
      have h2 := wf_evictLoop (readBytes unfrag 8 16)
        (dpi_ipv6_fragmentation_find_or_create_source st
          (readBytes unfrag 8 16)).1.flows.length
        (dpi_ipv6_fragmentation_find_or_create_source st
          (readBytes unfrag 8 16)).2 h1
      rw [heq2] at h2
      exact h2
    · rename_i st2 heq2
      have h2 := wf_evictLoop (readBytes unfrag 8 16)
        (dpi_ipv6_fragmentation_find_or_create_source st
          (readBytes unfrag 8 16)).1.flows.length
        (dpi_ipv6_fragmentation_find_or_create_source st
          (readBytes unfrag 8 16)).2 h1
      rw [heq2] at h2
      split
      · rename_i st3 heq3
        have h3 := wf_sweepLoop (readBytes unfrag 8 16) now
          st2.timers.length st2 h2
        rw [heq3] at h3
        exact h3
      · rename_i st3 heq3
        have h3 := wf_sweepLoop (readBytes unfrag 8 16) now
          st2.timers.length st2 h2
        rw [heq3] at h3
        split
        · rename_i st4 heq4
          have hst4 := focf_none heq4
          subst hst4
          exact h3
        · rename_i flow st4 heq4
          have h4 : WF st4 := by
            rcases focf_some_cases heq4 with ⟨hst4, -⟩ | ⟨-, s3, hs3, hff3⟩
            · subst hst4; exact h3
            · have hsnd : (dpi_ipv6_fragmentation_find_or_create_flow st3
                  (readBytes unfrag 8 16) id (readBytes unfrag 24 16)
                  now).2 = st4 := congrArg Prod.snd heq4
              rw [← hsnd]
              exact wf_foc_flow st3 (readBytes unfrag 8 16) id
                (readBytes unfrag 24 16) now h3
          by_cases hscreen : flow.len ≠ 0 ∧ offset > flow.len
          · rw [if_pos hscreen]
            exact h4
          · rw [if_neg hscreen]
            by_cases hisnone : flow.unfragmentable.isNone = true
            · rw [if_pos hisnone]
              have h5 : WF (storeUnfragmentable st4
                  (readBytes unfrag 8 16) id (readBytes unfrag 24 16)
                  (unfrag.set 6 nh)) := by
                refine wf_store st4 (readBytes unfrag 8 16) id
                  (readBytes unfrag 24 16) (unfrag.set 6 nh) h4 ?_
                rcases focf_some_cases heq4 with
                  ⟨hst4, s3, hs3, hff3⟩ | ⟨hflow, s3, hs3, hff3⟩
                · intro f' hf'
                  subst hst4
                  have hfl : findFlow st4 (readBytes unfrag 8 16) id
                      (readBytes unfrag 24 16) = some flow := by
                    unfold findFlow
                    rw [hs3]
                    exact hff3
                  rw [hfl] at hf'
                  cases Option.some.inj hf'
                  exact Option.isNone_iff_eq_none.1 hisnone
                · intro f' hf'
                  have hsnd : (dpi_ipv6_fragmentation_find_or_create_flow st3
                      (readBytes unfrag 8 16) id (readBytes unfrag 24 16)
                      now).2 = st4 := congrArg Prod.snd heq4
                  have hcreate := findFlow_after_create id
                    (readBytes unfrag 24 16) now hs3 hff3
                  rw [hsnd] at hcreate
                  rw [hcreate] at hf'
                  cases Option.some.inj hf'
                  rfl
              exact wf_tail _ _ _ _ _ _ _ _ _ (Nat.le_add_right _ _) h5
            · rw [if_neg hisnone]
              exact wf_tail _ _ _ _ _ _ _ _ _ (Nat.le_add_right _ _) h4

instance (s : Source) : Decidable (sourceOk s) := by
  unfold sourceOk
  infer_instance

instance (st : State) : Decidable (WF st) := by
  unfold WF
  infer_instance

/-- C3.  When the engine's counters are consistent before the call — the
well-formedness invariant WF, which holds of a freshly enabled engine and is
preserved by every call — then after any Reassemble call the engine's
total_used_mem equals the sum of source_used_mem over all sources in the
table. -/
theorem c3_total_mem_invariant (st : State) (unfrag frag : Bytes)
    (offset mf id nh now : Nat) (hwf : WF st) :
    (dpi_reordering_manage_ipv6_fragment st unfrag frag
      offset mf id nh now).2.total_used_mem =
    sourcesMem (dpi_reordering_manage_ipv6_fragment st unfrag frag
      offset mf id nh now).2.sources :=
  (wf_manage st unfrag frag offset mf id nh now hwf).2.2.2.2

/-- Witness for c3_total_mem_invariant at a concrete input: a freshly enabled
engine is well-formed, and a call delivering a first MF=1 fragment leaves the
total counter equal to the per-source sum. -/
theorem c3_total_mem_invariant_witness :
    WF (dpi_reordering_enable_ipv6_fragmentation 4) ∧
    (dpi_reordering_manage_ipv6_fragment
      (dpi_reordering_enable_ipv6_fragmentation 4) (mkHdr 1 2)
      (List.replicate 5 9) 0 1 7 59 0).2.total_used_mem =
    sourcesMem (dpi_reordering_manage_ipv6_fragment
      (dpi_reordering_enable_ipv6_fragmentation 4) (mkHdr 1 2)
      (List.replicate 5 9) 0 1 7 59 0).2.sources :=
  ⟨by decide,
   c3_total_mem_invariant (dpi_reordering_enable_ipv6_fragmentation 4)
     (mkHdr 1 2) (List.replicate 5 9) 0 1 7 59 0 (by decide)⟩

end Ipv6Reassembly
